import Mathlib

/-!
# PyOil3 ownership-dependency mechanism: verification

A shallow embedding of the cell mechanism generated by the `pyoil3_class!`
and `pyoil3_ref_class!` macros (src/lib.rs).  Both macros generate a module
holding a `RustInstance` guarded by an `Arc<Mutex<...>>`:

* `pyoil3_class!` generates an owning cell: `RustInstance { instance }` and
  `bind_instance(instance) = PyClass(Arc::new(Mutex::new(RustInstance { instance })))`.
* `pyoil3_ref_class!` generates a dependent (ref) cell:
  `RustInstance { ref_static, owner }` and
  `bind_owned_instance(reference, owner)` which transmutes `reference` to
  `'static` and moves the received `owner` Arc into the new instance:
  no `.clone()` occurs inside the function body.

The embedding models the Arc heap explicitly: a state is a list of cell
allocations indexed by creation order.  A cell's strong count is the number
of external handles (`ext`, tracking the `PyClass` values and their clones
held by callers) plus the number of allocated ref cells whose stored owner
handle points at it.  Dropping the last handle deallocates the payload and
releases the stored owner handle, cascading up the dependency chain exactly
as nested `Arc` drops do.  Each cell carries its `Mutex` state (`lockOwner`)
and an instrumentation counter of deallocation events (`deallocs`) so that
"deallocated exactly once" is expressible.
-/

namespace Pyoil3

/-- The guarded `RustInstance` body of a cell.  `owned v` is the
`RustInstance { instance: v }` of a `pyoil3_class!` module; `ref w o` is the
`RustInstance { ref_static: w, owner: <handle to cell o> }` of a
`pyoil3_ref_class!` module. -/
inductive CellKind (V W : Type) where
  | owned (v : V)
  | ref (ref_static : W) (owner : Nat)
deriving Repr, DecidableEq

/-- One `Arc<Mutex<RustInstance>>` allocation.  `ext` counts the external
strong handles (the returned `PyClass` and caller-made clones); handles
stored inside dependent cells are counted through the cell bodies instead.
`body = none` means the `RustInstance` has been deallocated.  `deallocs`
counts deallocation events.  `lockOwner` is the `Mutex` state: the thread
currently holding the guard, if any. -/
structure Cell (V W : Type) where
  ext : Nat
  body : Option (CellKind V W)
  deallocs : Nat
  lockOwner : Option Nat
deriving Repr, DecidableEq

/-- The Arc heap: cells indexed by creation order, plus an instrumentation
counter of `Arc::clone` events performed on owner handles. -/
structure State (V W : Type) where
  cells : List (Cell V W)
  cloneOps : Nat
deriving Repr, DecidableEq

/-- The empty heap: no cells bound yet. -/
def initState (V W : Type) : State V W := ⟨[], 0⟩

/-- `std::mem::transmute::<T<'a>, T<'static>>`: reinterprets the view with
its lifetime parameter stripped.  Between `T<'a>` and `T<'static>` the
representation is unchanged, so on the carried value it is the identity;
only the compile-time validity scope (which the embedding does not carry)
is erased. -/
def transmuteErase {W : Type} (w : W) : W := w

/-- External-handle count of cell `i` (0 if no such cell). -/
def cellExt {V W : Type} (s : State V W) (i : Nat) : Nat :=
  ((s.cells.get? i).map Cell.ext).getD 0

/-- Guarded body of cell `i` (`none` if deallocated or no such cell). -/
def cellBody {V W : Type} (s : State V W) (i : Nat) : Option (CellKind V W) :=
  (s.cells.get? i).bind Cell.body

/-- Number of deallocation events on cell `i`. -/
def cellDeallocs {V W : Type} (s : State V W) (i : Nat) : Nat :=
  ((s.cells.get? i).map Cell.deallocs).getD 0

/-- `Mutex` state of cell `i`: the thread holding the guard, if any. -/
def cellLock {V W : Type} (s : State V W) (i : Nat) : Option Nat :=
  (s.cells.get? i).bind Cell.lockOwner

/-- Whether an allocated cell body is a dependent (`ref_class`) instance
whose stored owner handle points at cell `i`. -/
def refToB {V W : Type} (i : Nat) (c : Cell V W) : Bool :=
  match c.body with
  | some (CellKind.ref _ o) => o == i
  | _ => false

/-- Number of allocated dependent cells whose stored owner handle points at
cell `i`. -/
def childRefs {V W : Type} (s : State V W) (i : Nat) : Nat :=
  s.cells.countP (refToB i)

/-- `Arc::strong_count` of cell `i`: external handles plus owner handles
stored inside live dependent cells. -/
def strongCount {V W : Type} (s : State V W) (i : Nat) : Nat :=
  cellExt s i + childRefs s i

/-- Replace cell `i`'s allocation record (identity if out of range). -/
def updateCell {V W : Type} (s : State V W) (i : Nat) (f : Cell V W → Cell V W) :
    State V W :=
  match s.cells.get? i with
  | none => s
  | some c => { s with cells := s.cells.set i (f c) }

/-- Deallocate cell `i`'s `RustInstance`: the guarded body is freed and the
deallocation counter is bumped. -/
def setDead {V W : Type} (s : State V W) (i : Nat) : State V W :=
  updateCell s i (fun c => { c with body := none, deallocs := c.deallocs + 1 })

/-- The drop glue of nested `Arc`s: if cell `i`'s strong count has reached
zero, deallocate its body; when the body was a dependent instance this
releases the stored owner handle, so the check recurses on the owner.
`fuel` bounds the chain; owners are always created before their dependents,
so `i + 1` fuel always suffices. -/
def sweep {V W : Type} : Nat → State V W → Nat → State V W
  | 0, s, _ => s
  | fuel + 1, s, i =>
    if strongCount s i = 0 then
      match cellBody s i with
      | some (CellKind.owned _) => setDead s i
      | some (CellKind.ref _ o) => sweep fuel (setDead s i) o
      | none => s
    else s

/-- `PyClass::bind_instance` of a `pyoil3_class!` module: allocate a fresh
`Arc<Mutex<RustInstance { instance: v }>>` with one external handle.  The
new cell's index is `s.cells.length`. -/
def bind_instance {V W : Type} (s : State V W) (v : V) : State V W :=
  { s with cells := s.cells ++ [⟨1, some (CellKind.owned v), 0, none⟩] }

/-- `PyClass::bind_owned_instance` of a `pyoil3_ref_class!` module: the
view `w` is lifetime-erased by `transmuteErase` and packaged, together with
the received owner handle, into a fresh `Arc<Mutex<RustInstance>>` with one
external handle.  The owner handle the caller passed by value is moved into
the new instance (one external handle of `i` becomes the stored handle);
the function performs no `Arc::clone`. -/
def bind_owned_instance {V W : Type} (s : State V W) (w : W) (i : Nat) : State V W :=
  let s₁ := updateCell s i (fun c => { c with ext := c.ext - 1 })
  { s₁ with cells := s₁.cells ++ [⟨1, some (CellKind.ref (transmuteErase w) i), 0, none⟩] }

/-- `Arc::clone` on a handle of cell `i`: one more external handle, and the
clone-event counter is bumped. -/
def cloneHandle {V W : Type} (s : State V W) (i : Nat) : State V W :=
  let s₁ := updateCell s i (fun c => { c with ext := c.ext + 1 })
  { s₁ with cloneOps := s₁.cloneOps + 1 }

/-- Drop one external handle of cell `i`, running the cascading drop glue. -/
def dropHandle {V W : Type} (s : State V W) (i : Nat) : State V W :=
  let s₁ := updateCell s i (fun c => { c with ext := c.ext - 1 })
  sweep (i + 1) s₁ i

/-- The operations the mechanism exposes on the Arc heap.  `bind` and
`bindOwned` are the two generated constructors; `clone` and `drop` are the
`Arc` handle operations the host runtime drives; `acquire`, `release` and
`mutate` are the `Mutex` discipline on a cell's guarded payload. -/
inductive Op (V W : Type) where
  | bind (v : V)
  | bindOwned (w : W) (i : Nat)
  | clone (i : Nat)
  | drop (i : Nat)
  | acquire (t i : Nat)
  | release (t i : Nat)
  | mutate (t i : Nat) (f : V → V)

/-- Apply one operation, checking its usage precondition: constructing a
dependent cell or dropping a handle consumes an external handle that must
exist, cloning requires some live handle, and payload access requires
holding the cell's `Mutex`. -/
def applyOp {V W : Type} (s : State V W) : Op V W → Option (State V W)
  | Op.bind v => some (bind_instance s v)
  | Op.bindOwned w i =>
    if 0 < cellExt s i then some (bind_owned_instance s w i) else none
  | Op.clone i =>
    if 0 < strongCount s i then some (cloneHandle s i) else none
  | Op.drop i =>
    if 0 < cellExt s i then some (dropHandle s i) else none
  | Op.acquire t i =>
    if cellLock s i = none ∧ 0 < strongCount s i then
      some (updateCell s i (fun c => { c with lockOwner := some t }))
    else none
  | Op.release t i =>
    if cellLock s i = some t then
      some (updateCell s i (fun c => { c with lockOwner := none }))
    else none
  | Op.mutate t i f =>
    if cellLock s i = some t then
      match cellBody s i with
      | some (CellKind.owned v) =>
        some (updateCell s i (fun c => { c with body := some (CellKind.owned (f v)) }))
      | _ => none
    else none

/-- Run a sequence of operations from a state; `none` if any usage
precondition is violated. -/
def run {V W : Type} (s : State V W) : List (Op V W) → Option (State V W)
  | [] => some s
  | op :: ops =>
    match applyOp s op with
    | none => none
    | some s₁ => run s₁ ops

/-- Every stored owner handle points at a cell created strictly earlier. -/
def EdgesBelow {V W : Type} (s : State V W) : Prop :=
  ∀ j c, s.cells.get? j = some c → ∀ w o, c.body = some (CellKind.ref w o) → o < j

/-- The per-cell liveness invariant: a cell with a nonzero strong count is
allocated and has never been deallocated; a cell whose count has reached
zero has been deallocated exactly once. -/
def CellOk {V W : Type} (s : State V W) (i : Nat) : Prop :=
  (0 < strongCount s i ∧ (cellBody s i).isSome ∧ cellDeallocs s i = 0)
  ∨ (strongCount s i = 0 ∧ cellBody s i = none ∧ cellDeallocs s i = 1)

/-- The heap invariant maintained by every operation. -/
def Inv {V W : Type} (s : State V W) : Prop :=
  EdgesBelow s ∧ ∀ i, i < s.cells.length → CellOk s i

/-- Direct or transitive dependency between allocated cells: `DependsOn s j o`
holds when the live dependent cell `j` reaches `o` along stored owner
handles. -/
inductive DependsOn {V W : Type} (s : State V W) : Nat → Nat → Prop where
  | direct {j o : Nat} {w : W} (h : cellBody s j = some (CellKind.ref w o)) :
      DependsOn s j o
  | trans {j k o : Nat} {w : W} (h : cellBody s j = some (CellKind.ref w k))
      (hk : DependsOn s k o) : DependsOn s j o

/-! ## Generic list lemmas -/

theorem countP_set_add {α : Type} (p : α → Bool) :
    ∀ (l : List α) (i : Nat) (a b : α), l.get? i = some a →
      (l.set i b).countP p + (if p a then 1 else 0)
        = l.countP p + (if p b then 1 else 0) := by
  intro l
  induction l with
  | nil => intro i a b h; simp at h
  | cons x xs ih =>
    intro i a b h
    cases i with
    | zero =>
      simp only [List.get?] at h
      cases h
      simp only [List.set, List.countP_cons]
      omega
    | succ n =>
      simp only [List.get?] at h
      simp only [List.set, List.countP_cons]
      have := ih n a b h
      omega

theorem one_le_countP {α : Type} (p : α → Bool) (l : List α) (i : Nat) (a : α)
    (h : l.get? i = some a) (hp : p a = true) : 1 ≤ l.countP p := by
  show 0 < l.countP p
  rw [List.countP_pos_iff]
  exact ⟨a, List.get?_mem h, hp⟩

theorem two_le_countP {α : Type} (p : α → Bool) :
    ∀ (l : List α) (i j : Nat) (a b : α), i ≠ j →
      l.get? i = some a → l.get? j = some b → p a = true → p b = true →
      2 ≤ l.countP p := by
  intro l
  induction l with
  | nil => intro i j a b _ h; simp at h
  | cons x xs ih =>
    intro i j a b hne ha hb hpa hpb
    cases i with
    | zero =>
      simp only [List.get?] at ha
      cases ha
      cases j with
      | zero => exact absurd rfl hne
      | succ m =>
        simp only [List.get?] at hb
        have h1 : 1 ≤ xs.countP p := one_le_countP p xs m b hb hpb
        rw [List.countP_cons, hpa]
        simp only [if_true]
        omega
    | succ n =>
      simp only [List.get?] at ha
      cases j with
      | zero =>
        simp only [List.get?] at hb
        cases hb
        have h1 : 1 ≤ xs.countP p := one_le_countP p xs n a ha hpa
        rw [List.countP_cons, hpb]
        simp only [if_true]
        omega
      | succ m =>
        simp only [List.get?] at hb
        have hne' : n ≠ m := fun h => hne (by rw [h])
        have := ih n m a b hne' ha hb hpa hpb
        simp only [List.countP_cons]
        omega

/-! ## `updateCell` lemmas -/

theorem updateCell_none {V W : Type} (s : State V W) (i : Nat)
    (f : Cell V W → Cell V W) (hc : s.cells.get? i = none) :
    updateCell s i f = s := by
  unfold updateCell
  rw [hc]

theorem updateCell_get_self {V W : Type} (s : State V W) (i : Nat)
    (f : Cell V W → Cell V W) (c : Cell V W) (h : s.cells.get? i = some c) :
    (updateCell s i f).cells.get? i = some (f c) := by
  unfold updateCell
  rw [h]
  exact List.get?_set_eq_of_lt (f c) (List.get?_eq_some.mp h).fst

theorem updateCell_get_ne {V W : Type} (s : State V W) (i j : Nat)
    (f : Cell V W → Cell V W) (h : i ≠ j) :
    (updateCell s i f).cells.get? j = s.cells.get? j := by
  unfold updateCell
  cases hc : s.cells.get? i with
  | none => rfl
  | some c => exact List.get?_set_ne (f c) s.cells h

theorem updateCell_length {V W : Type} (s : State V W) (i : Nat)
    (f : Cell V W → Cell V W) :
    (updateCell s i f).cells.length = s.cells.length := by
  unfold updateCell
  cases hc : s.cells.get? i with
  | none => rfl
  | some c => exact List.length_set s.cells i (f c)

theorem updateCell_cloneOps {V W : Type} (s : State V W) (i : Nat)
    (f : Cell V W → Cell V W) :
    (updateCell s i f).cloneOps = s.cloneOps := by
  unfold updateCell
  cases hc : s.cells.get? i with
  | none => rfl
  | some c => rfl

theorem updateCell_childRefs_of_body {V W : Type} (s : State V W) (i : Nat)
    (f : Cell V W → Cell V W) (hf : ∀ c, (f c).body = c.body) (x : Nat) :
    childRefs (updateCell s i f) x = childRefs s x := by
  unfold updateCell childRefs
  cases hc : s.cells.get? i with
  | none => rfl
  | some c =>
    have hp : refToB x (f c) = refToB x c := by
      unfold refToB
      rw [hf c]
    have := countP_set_add (refToB x) s.cells i c (f c) hc
    rw [hp] at this
    simpa using this

theorem updateCell_cellBody_of_body {V W : Type} (s : State V W) (i : Nat)
    (f : Cell V W → Cell V W) (hf : ∀ c, (f c).body = c.body) (x : Nat) :
    cellBody (updateCell s i f) x = cellBody s x := by
  by_cases hx : i = x
  · subst hx
    unfold cellBody
    cases hc : s.cells.get? i with
    | none => rw [updateCell_none s i f hc, hc]
    | some c =>
      rw [updateCell_get_self s i f c hc]
      simp [hf c]
  · unfold cellBody
    rw [updateCell_get_ne s i x f hx]

theorem updateCell_cellExt_of_ext {V W : Type} (s : State V W) (i : Nat)
    (f : Cell V W → Cell V W) (hf : ∀ c, (f c).ext = c.ext) (x : Nat) :
    cellExt (updateCell s i f) x = cellExt s x := by
  by_cases hx : i = x
  · subst hx
    unfold cellExt
    cases hc : s.cells.get? i with
    | none => rw [updateCell_none s i f hc, hc]
    | some c =>
      rw [updateCell_get_self s i f c hc]
      simp [hf c]
  · unfold cellExt
    rw [updateCell_get_ne s i x f hx]

theorem updateCell_cellDeallocs_of_deallocs {V W : Type} (s : State V W) (i : Nat)
    (f : Cell V W → Cell V W) (hf : ∀ c, (f c).deallocs = c.deallocs) (x : Nat) :
    cellDeallocs (updateCell s i f) x = cellDeallocs s x := by
  by_cases hx : i = x
  · subst hx
    unfold cellDeallocs
    cases hc : s.cells.get? i with
    | none => rw [updateCell_none s i f hc, hc]
    | some c =>
      rw [updateCell_get_self s i f c hc]
      simp [hf c]
  · unfold cellDeallocs
    rw [updateCell_get_ne s i x f hx]

theorem updateCell_cellLock_of_lock {V W : Type} (s : State V W) (i : Nat)
    (f : Cell V W → Cell V W) (hf : ∀ c, (f c).lockOwner = c.lockOwner) (x : Nat) :
    cellLock (updateCell s i f) x = cellLock s x := by
  by_cases hx : i = x
  · subst hx
    unfold cellLock
    cases hc : s.cells.get? i with
    | none => rw [updateCell_none s i f hc, hc]
    | some c =>
      rw [updateCell_get_self s i f c hc]
      simp [hf c]
  · unfold cellLock
    rw [updateCell_get_ne s i x f hx]

/-! ## Basic facts about cell indices -/

theorem cellExt_valid {V W : Type} (s : State V W) (i : Nat)
    (h : 0 < cellExt s i) : ∃ c, s.cells.get? i = some c := by
  unfold cellExt at h
  cases hc : s.cells.get? i with
  | none => rw [hc] at h; simp at h
  | some c => exact ⟨c, rfl⟩

theorem get_lt_length {V W : Type} (s : State V W) (i : Nat) (c : Cell V W)
    (h : s.cells.get? i = some c) : i < s.cells.length :=
  (List.get?_eq_some.mp h).fst

theorem get_of_lt_length {V W : Type} (s : State V W) (i : Nat)
    (h : i < s.cells.length) : ∃ c, s.cells.get? i = some c :=
  ⟨s.cells.get ⟨i, h⟩, List.get?_eq_get h⟩

theorem childRefs_invalid {V W : Type} (s : State V W) (i : Nat)
    (hE : EdgesBelow s) (h : s.cells.length ≤ i) : childRefs s i = 0 := by
  unfold childRefs
  rw [List.countP_eq_zero]
  intro c hc hp
  obtain ⟨j, hj⟩ := List.get_of_mem hc
  have hget : s.cells.get? j.val = some c := by
    rw [List.get?_eq_get j.isLt]
    exact congrArg some hj
  unfold refToB at hp
  cases hb : c.body with
  | none => rw [hb] at hp; simp at hp
  | some k =>
    cases k with
    | owned v => rw [hb] at hp; simp at hp
    | ref w o =>
      rw [hb] at hp
      simp only [beq_iff_eq] at hp
      have h2 := hE j.val c hget w o hb
      have h3 := j.isLt
      omega

theorem strongCount_invalid {V W : Type} (s : State V W) (i : Nat)
    (hE : EdgesBelow s) (h : s.cells.length ≤ i) : strongCount s i = 0 := by
  unfold strongCount
  rw [childRefs_invalid s i hE h]
  unfold cellExt
  rw [List.get?_eq_none.mpr h]
  rfl

theorem strongCount_pos_valid {V W : Type} (s : State V W) (i : Nat)
    (hE : EdgesBelow s) (h : 0 < strongCount s i) : i < s.cells.length := by
  by_contra hlt
  rw [strongCount_invalid s i hE (by omega)] at h
  exact absurd h (by omega)

/-! ## `bind_instance` effect lemmas -/

theorem bind_instance_length {V W : Type} (s : State V W) (v : V) :
    (bind_instance s v).cells.length = s.cells.length + 1 := by
  unfold bind_instance
  simp

theorem bind_instance_get_ne {V W : Type} (s : State V W) (v : V) (j : Nat)
    (h : j ≠ s.cells.length) :
    (bind_instance s v).cells.get? j = s.cells.get? j := by
  unfold bind_instance
  rcases Nat.lt_or_ge j s.cells.length with hlt | hge
  · exact List.get?_append hlt
  · have h1 : s.cells.length < j := by omega
    rw [List.get?_eq_none.mpr (by simp; omega), List.get?_eq_none.mpr (by omega)]

theorem bind_instance_get_new {V W : Type} (s : State V W) (v : V) :
    (bind_instance s v).cells.get? s.cells.length
      = some ⟨1, some (CellKind.owned v), 0, none⟩ := by
  unfold bind_instance
  exact List.get?_concat_length s.cells _

theorem bind_instance_childRefs {V W : Type} (s : State V W) (v : V) (x : Nat) :
    childRefs (bind_instance s v) x = childRefs s x := by
  unfold bind_instance childRefs
  simp only [List.countP_append]
  have : refToB x (⟨1, some (CellKind.owned v), 0, none⟩ : Cell V W) = false := rfl
  simp [List.countP_cons, this]

theorem bind_instance_cloneOps {V W : Type} (s : State V W) (v : V) :
    (bind_instance s v).cloneOps = s.cloneOps := rfl

/-! ## `bind_owned_instance` effect lemmas -/

theorem bind_owned_instance_length {V W : Type} (s : State V W) (w : W) (i : Nat) :
    (bind_owned_instance s w i).cells.length = s.cells.length + 1 := by
  unfold bind_owned_instance
  simp [updateCell_length]

theorem bind_owned_instance_get_ne {V W : Type} (s : State V W) (w : W) (i j : Nat)
    (hi : j ≠ i) (hlen : j ≠ s.cells.length) :
    (bind_owned_instance s w i).cells.get? j = s.cells.get? j := by
  unfold bind_owned_instance
  have hlen' : j ≠ (updateCell s i (fun c => { c with ext := c.ext - 1 })).cells.length := by
    rw [updateCell_length]; exact hlen
  rcases Nat.lt_or_ge j (updateCell s i (fun c => { c with ext := c.ext - 1 })).cells.length
    with hlt | hge
  · rw [List.get?_append hlt]
    exact updateCell_get_ne s i j _ (fun h => hi h.symm)
  · have h1 : (updateCell s i (fun c => { c with ext := c.ext - 1 })).cells.length < j := by
      omega
    rw [updateCell_length] at h1
    rw [List.get?_eq_none.mpr (by simp [updateCell_length]; omega),
      List.get?_eq_none.mpr (by omega)]

theorem bind_owned_instance_get_new {V W : Type} (s : State V W) (w : W) (i : Nat) :
    (bind_owned_instance s w i).cells.get? s.cells.length
      = some ⟨1, some (CellKind.ref (transmuteErase w) i), 0, none⟩ := by
  unfold bind_owned_instance
  have : s.cells.length = (updateCell s i (fun c => { c with ext := c.ext - 1 })).cells.length := by
    rw [updateCell_length]
  rw [this]
  exact List.get?_concat_length _ _

theorem bind_owned_instance_get_self {V W : Type} (s : State V W) (w : W) (i : Nat)
    (c : Cell V W) (hc : s.cells.get? i = some c) :
    (bind_owned_instance s w i).cells.get? i = some { c with ext := c.ext - 1 } := by
  unfold bind_owned_instance
  have hlt : i < (updateCell s i (fun c => { c with ext := c.ext - 1 })).cells.length := by
    rw [updateCell_length]
    exact get_lt_length s i c hc
  rw [List.get?_append hlt]
  exact updateCell_get_self s i _ c hc

theorem bind_owned_instance_childRefs {V W : Type} (s : State V W) (w : W) (i x : Nat) :
    childRefs (bind_owned_instance s w i) x
      = childRefs s x + (if i = x then 1 else 0) := by
  unfold bind_owned_instance
  show (List.countP _ _) = _
  simp only [List.countP_append]
  have h1 : childRefs (updateCell s i (fun c => { c with ext := c.ext - 1 })) x
      = childRefs s x :=
    updateCell_childRefs_of_body s i (fun c => { c with ext := c.ext - 1 }) (fun c => rfl) x
  have h2 : refToB x (⟨1, some (CellKind.ref (transmuteErase w) i), 0, none⟩ : Cell V W)
      = (i == x) := rfl
  unfold childRefs at h1
  rw [h1]
  simp only [List.countP_cons, List.countP_nil, h2]
  rcases eq_or_ne i x with hix | hix
  · subst hix
    simp [childRefs]
  · have hb : (i == x) = false := by simp [hix]
    rw [hb, if_neg hix]
    simp [childRefs]

theorem bind_owned_instance_cellBody {V W : Type} (s : State V W) (w : W) (i x : Nat)
    (hx : x ≠ s.cells.length) :
    cellBody (bind_owned_instance s w i) x = cellBody s x := by
  by_cases hxi : x = i
  · subst hxi
    unfold cellBody
    cases hc : s.cells.get? x with
    | none =>
      have hge : s.cells.length ≤ x := by
        by_contra hl
        obtain ⟨c, hcc⟩ := get_of_lt_length s x (by omega)
        rw [hcc] at hc
        exact Option.noConfusion hc
      have hnone : (bind_owned_instance s w x).cells.get? x = none := by
        apply List.get?_eq_none.mpr
        rw [bind_owned_instance_length]
        omega
      rw [hnone]
    | some c =>
      rw [bind_owned_instance_get_self s w x c hc]
      rfl
  · unfold cellBody
    rw [bind_owned_instance_get_ne s w i x hxi hx]

theorem bind_owned_instance_cellDeallocs {V W : Type} (s : State V W) (w : W) (i x : Nat)
    (hx : x ≠ s.cells.length) :
    cellDeallocs (bind_owned_instance s w i) x = cellDeallocs s x := by
  by_cases hxi : x = i
  · subst hxi
    unfold cellDeallocs
    cases hc : s.cells.get? x with
    | none =>
      have hge : s.cells.length ≤ x := by
        by_contra hl
        obtain ⟨c, hcc⟩ := get_of_lt_length s x (by omega)
        rw [hcc] at hc
        exact Option.noConfusion hc
      have hnone : (bind_owned_instance s w x).cells.get? x = none := by
        apply List.get?_eq_none.mpr
        rw [bind_owned_instance_length]
        omega
      rw [hnone]
    | some c =>
      rw [bind_owned_instance_get_self s w x c hc]
      rfl
  · unfold cellDeallocs
    rw [bind_owned_instance_get_ne s w i x hxi hx]

theorem bind_owned_instance_cellLock {V W : Type} (s : State V W) (w : W) (i x : Nat)
    (hx : x ≠ s.cells.length) :
    cellLock (bind_owned_instance s w i) x = cellLock s x := by
  by_cases hxi : x = i
  · subst hxi
    unfold cellLock
    cases hc : s.cells.get? x with
    | none =>
      have hge : s.cells.length ≤ x := by
        by_contra hl
        obtain ⟨c, hcc⟩ := get_of_lt_length s x (by omega)
        rw [hcc] at hc
        exact Option.noConfusion hc
      have hnone : (bind_owned_instance s w x).cells.get? x = none := by
        apply List.get?_eq_none.mpr
        rw [bind_owned_instance_length]
        omega
      rw [hnone]
    | some c =>
      rw [bind_owned_instance_get_self s w x c hc]
      rfl
  · unfold cellLock
    rw [bind_owned_instance_get_ne s w i x hxi hx]

theorem bind_owned_instance_cellExt_self {V W : Type} (s : State V W) (w : W) (i : Nat)
    (c : Cell V W) (hc : s.cells.get? i = some c) :
    cellExt (bind_owned_instance s w i) i = c.ext - 1 := by
  unfold cellExt
  rw [bind_owned_instance_get_self s w i c hc]
  rfl

theorem bind_owned_instance_cellExt_ne {V W : Type} (s : State V W) (w : W) (i x : Nat)
    (hxi : x ≠ i) (hx : x ≠ s.cells.length) :
    cellExt (bind_owned_instance s w i) x = cellExt s x := by
  unfold cellExt
  rw [bind_owned_instance_get_ne s w i x hxi hx]

theorem bind_owned_instance_cloneOps {V W : Type} (s : State V W) (w : W) (i : Nat) :
    (bind_owned_instance s w i).cloneOps = s.cloneOps := by
  unfold bind_owned_instance
  show (updateCell s i _).cloneOps = s.cloneOps
  exact updateCell_cloneOps s i _

theorem bind_owned_instance_strongCount_self {V W : Type} (s : State V W) (w : W) (i : Nat)
    (c : Cell V W) (hc : s.cells.get? i = some c) (hext : 0 < c.ext) :
    strongCount (bind_owned_instance s w i) i = strongCount s i := by
  unfold strongCount
  rw [bind_owned_instance_cellExt_self s w i c hc,
    bind_owned_instance_childRefs s w i i]
  have : cellExt s i = c.ext := by unfold cellExt; rw [hc]; rfl
  rw [this]
  simp
  omega


/-! ## `cloneHandle` effect lemmas -/

theorem cloneHandle_cells {V W : Type} (s : State V W) (i : Nat) :
    (cloneHandle s i).cells = (updateCell s i (fun c => { c with ext := c.ext + 1 })).cells := rfl

theorem cloneHandle_cloneOps {V W : Type} (s : State V W) (i : Nat) :
    (cloneHandle s i).cloneOps = s.cloneOps + 1 := by
  show (updateCell s i _).cloneOps + 1 = s.cloneOps + 1
  rw [updateCell_cloneOps]

theorem cloneHandle_cellBody {V W : Type} (s : State V W) (i x : Nat) :
    cellBody (cloneHandle s i) x = cellBody s x :=
  updateCell_cellBody_of_body s i (fun c => { c with ext := c.ext + 1 }) (fun _ => rfl) x

theorem cloneHandle_cellDeallocs {V W : Type} (s : State V W) (i x : Nat) :
    cellDeallocs (cloneHandle s i) x = cellDeallocs s x :=
  updateCell_cellDeallocs_of_deallocs s i (fun c => { c with ext := c.ext + 1 }) (fun _ => rfl) x

theorem cloneHandle_cellLock {V W : Type} (s : State V W) (i x : Nat) :
    cellLock (cloneHandle s i) x = cellLock s x :=
  updateCell_cellLock_of_lock s i (fun c => { c with ext := c.ext + 1 }) (fun _ => rfl) x

theorem cloneHandle_childRefs {V W : Type} (s : State V W) (i x : Nat) :
    childRefs (cloneHandle s i) x = childRefs s x :=
  updateCell_childRefs_of_body s i (fun c => { c with ext := c.ext + 1 }) (fun _ => rfl) x

theorem cloneHandle_cellExt_self {V W : Type} (s : State V W) (i : Nat) (c : Cell V W)
    (hc : s.cells.get? i = some c) :
    cellExt (cloneHandle s i) i = c.ext + 1 := by
  unfold cellExt
  rw [cloneHandle_cells, updateCell_get_self s i _ c hc]
  rfl

theorem cloneHandle_cellExt_ne {V W : Type} (s : State V W) (i x : Nat) (h : x ≠ i) :
    cellExt (cloneHandle s i) x = cellExt s x := by
  unfold cellExt
  rw [cloneHandle_cells, updateCell_get_ne s i x _ (fun hh => h hh.symm)]

theorem cloneHandle_strongCount_self {V W : Type} (s : State V W) (i : Nat) (c : Cell V W)
    (hc : s.cells.get? i = some c) :
    strongCount (cloneHandle s i) i = strongCount s i + 1 := by
  unfold strongCount
  rw [cloneHandle_cellExt_self s i c hc, cloneHandle_childRefs]
  have : cellExt s i = c.ext := by unfold cellExt; rw [hc]; rfl
  rw [this]
  omega

theorem cloneHandle_strongCount_ne {V W : Type} (s : State V W) (i x : Nat) (h : x ≠ i) :
    strongCount (cloneHandle s i) x = strongCount s x := by
  unfold strongCount
  rw [cloneHandle_cellExt_ne s i x h, cloneHandle_childRefs]

theorem cloneHandle_length {V W : Type} (s : State V W) (i : Nat) :
    (cloneHandle s i).cells.length = s.cells.length := by
  rw [cloneHandle_cells, updateCell_length]

/-! ## `setDead` effect lemmas -/

theorem setDead_length {V W : Type} (s : State V W) (i : Nat) :
    (setDead s i).cells.length = s.cells.length :=
  updateCell_length s i _

theorem setDead_cloneOps {V W : Type} (s : State V W) (i : Nat) :
    (setDead s i).cloneOps = s.cloneOps :=
  updateCell_cloneOps s i _

theorem setDead_cellExt {V W : Type} (s : State V W) (i x : Nat) :
    cellExt (setDead s i) x = cellExt s x :=
  updateCell_cellExt_of_ext s i
    (fun c => { c with body := none, deallocs := c.deallocs + 1 }) (fun _ => rfl) x

theorem setDead_cellLock {V W : Type} (s : State V W) (i x : Nat) :
    cellLock (setDead s i) x = cellLock s x :=
  updateCell_cellLock_of_lock s i
    (fun c => { c with body := none, deallocs := c.deallocs + 1 }) (fun _ => rfl) x

theorem setDead_cellBody_self {V W : Type} (s : State V W) (i : Nat) (c : Cell V W)
    (hc : s.cells.get? i = some c) :
    cellBody (setDead s i) i = none := by
  unfold cellBody setDead
  rw [updateCell_get_self s i _ c hc]
  rfl

theorem setDead_cellDeallocs_self {V W : Type} (s : State V W) (i : Nat) (c : Cell V W)
    (hc : s.cells.get? i = some c) :
    cellDeallocs (setDead s i) i = c.deallocs + 1 := by
  unfold cellDeallocs setDead
  rw [updateCell_get_self s i _ c hc]
  rfl

theorem setDead_cellBody_ne {V W : Type} (s : State V W) (i x : Nat) (h : x ≠ i) :
    cellBody (setDead s i) x = cellBody s x := by
  unfold cellBody setDead
  rw [updateCell_get_ne s i x _ (fun hh => h hh.symm)]

theorem setDead_cellDeallocs_ne {V W : Type} (s : State V W) (i x : Nat) (h : x ≠ i) :
    cellDeallocs (setDead s i) x = cellDeallocs s x := by
  unfold cellDeallocs setDead
  rw [updateCell_get_ne s i x _ (fun hh => h hh.symm)]

theorem setDead_childRefs {V W : Type} (s : State V W) (i : Nat) (c : Cell V W)
    (hc : s.cells.get? i = some c) (x : Nat) :
    childRefs (setDead s i) x + (if refToB x c = true then 1 else 0) = childRefs s x := by
  unfold childRefs setDead updateCell
  rw [hc]
  have hdead : refToB x ({ c with body := none, deallocs := c.deallocs + 1 } : Cell V W)
      = false := rfl
  have hcp := countP_set_add (refToB x) s.cells i c
    ({ c with body := none, deallocs := c.deallocs + 1 }) hc
  rw [hdead] at hcp
  simpa using hcp

theorem setDead_childRefs_not_ref {V W : Type} (s : State V W) (i : Nat) (c : Cell V W)
    (hc : s.cells.get? i = some c) (hb : ∀ w o, c.body ≠ some (CellKind.ref w o)) (x : Nat) :
    childRefs (setDead s i) x = childRefs s x := by
  have h := setDead_childRefs s i c hc x
  have hz : refToB x c = false := by
    unfold refToB
    cases hbb : c.body with
    | none => rfl
    | some k =>
      cases k with
      | owned v => rfl
      | ref w o => exact absurd hbb (hb w o)
  rw [hz] at h
  simpa using h

theorem setDead_childRefs_ref {V W : Type} (s : State V W) (i : Nat) (c : Cell V W)
    (w : W) (o : Nat) (hc : s.cells.get? i = some c)
    (hb : c.body = some (CellKind.ref w o)) :
    childRefs (setDead s i) o + 1 = childRefs s o
      ∧ ∀ x, x ≠ o → childRefs (setDead s i) x = childRefs s x := by
  constructor
  · have h := setDead_childRefs s i c hc o
    have hz : refToB o c = true := by
      unfold refToB
      rw [hb]
      simp
    rw [hz] at h
    simpa using h
  · intro x hx
    have h := setDead_childRefs s i c hc x
    have hz : refToB x c = false := by
      unfold refToB
      rw [hb]
      simp [Ne.symm hx]
    rw [hz] at h
    simpa using h

theorem setDead_edges {V W : Type} (s : State V W) (i : Nat) (hE : EdgesBelow s) :
    EdgesBelow (setDead s i) := by
  intro j c hj w o hb
  by_cases hji : j = i
  · subst hji
    cases hc : s.cells.get? j with
    | none =>
      rw [show setDead s j = s from updateCell_none s j _ hc] at hj
      rw [hj] at hc
      exact Option.noConfusion hc
    | some c0 =>
      unfold setDead at hj
      rw [updateCell_get_self s j _ c0 hc] at hj
      cases hj
      exact absurd hb (by simp)
  · unfold setDead at hj
    rw [updateCell_get_ne s i j _ (fun hh => hji hh.symm)] at hj
    exact hE j c hj w o hb


/-! ## Accessor unfolding helpers -/

theorem cellExt_eq_of_get {V W : Type} (s : State V W) (i : Nat) (c : Cell V W)
    (hc : s.cells.get? i = some c) : cellExt s i = c.ext := by
  unfold cellExt
  rw [hc]
  rfl

theorem cellBody_eq_of_get {V W : Type} (s : State V W) (i : Nat) (c : Cell V W)
    (hc : s.cells.get? i = some c) : cellBody s i = c.body := by
  unfold cellBody
  rw [hc]
  rfl

theorem cellDeallocs_eq_of_get {V W : Type} (s : State V W) (i : Nat) (c : Cell V W)
    (hc : s.cells.get? i = some c) : cellDeallocs s i = c.deallocs := by
  unfold cellDeallocs
  rw [hc]
  rfl

theorem cellBody_some_get {V W : Type} (s : State V W) (i : Nat) (b : CellKind V W)
    (hb : cellBody s i = some b) :
    ∃ c, s.cells.get? i = some c ∧ c.body = some b := by
  unfold cellBody at hb
  cases hc : s.cells.get? i with
  | none => rw [hc] at hb; exact Option.noConfusion hb
  | some c => rw [hc] at hb; exact ⟨c, rfl, hb⟩

theorem childRefs_child {V W : Type} (s : State V W) (i o : Nat) (c : Cell V W)
    (w : W) (hc : s.cells.get? i = some c) (hb : c.body = some (CellKind.ref w o)) :
    1 ≤ childRefs s o := by
  apply one_le_countP (refToB o) s.cells i c hc
  unfold refToB
  rw [hb]
  simp

/-! ## `sweep` lemmas -/

theorem sweep_cellExt {V W : Type} :
    ∀ (fuel : Nat) (s : State V W) (i x : Nat),
      cellExt (sweep fuel s i) x = cellExt s x := by
  intro fuel
  induction fuel with
  | zero => intro s i x; rfl
  | succ k ih =>
    intro s i x
    simp only [sweep]
    by_cases h0 : strongCount s i = 0
    · rw [if_pos h0]
      cases hb : cellBody s i with
      | none => rfl
      | some b =>
        cases b with
        | owned v => exact setDead_cellExt s i x
        | ref w o => rw [ih (setDead s i) o x]; exact setDead_cellExt s i x
    · rw [if_neg h0]

theorem sweep_cellLock {V W : Type} :
    ∀ (fuel : Nat) (s : State V W) (i x : Nat),
      cellLock (sweep fuel s i) x = cellLock s x := by
  intro fuel
  induction fuel with
  | zero => intro s i x; rfl
  | succ k ih =>
    intro s i x
    simp only [sweep]
    by_cases h0 : strongCount s i = 0
    · rw [if_pos h0]
      cases hb : cellBody s i with
      | none => rfl
      | some b =>
        cases b with
        | owned v => exact setDead_cellLock s i x
        | ref w o => rw [ih (setDead s i) o x]; exact setDead_cellLock s i x
    · rw [if_neg h0]

theorem sweep_length {V W : Type} :
    ∀ (fuel : Nat) (s : State V W) (i : Nat),
      (sweep fuel s i).cells.length = s.cells.length := by
  intro fuel
  induction fuel with
  | zero => intro s i; rfl
  | succ k ih =>
    intro s i
    simp only [sweep]
    by_cases h0 : strongCount s i = 0
    · rw [if_pos h0]
      cases hb : cellBody s i with
      | none => rfl
      | some b =>
        cases b with
        | owned v => exact setDead_length s i
        | ref w o => rw [ih (setDead s i) o]; exact setDead_length s i
    · rw [if_neg h0]

theorem sweep_cloneOps {V W : Type} :
    ∀ (fuel : Nat) (s : State V W) (i : Nat),
      (sweep fuel s i).cloneOps = s.cloneOps := by
  intro fuel
  induction fuel with
  | zero => intro s i; rfl
  | succ k ih =>
    intro s i
    simp only [sweep]
    by_cases h0 : strongCount s i = 0
    · rw [if_pos h0]
      cases hb : cellBody s i with
      | none => rfl
      | some b =>
        cases b with
        | owned v => exact setDead_cloneOps s i
        | ref w o => rw [ih (setDead s i) o]; exact setDead_cloneOps s i
    · rw [if_neg h0]

theorem sweep_cellBody_cases {V W : Type} :
    ∀ (fuel : Nat) (s : State V W) (i x : Nat),
      cellBody (sweep fuel s i) x = cellBody s x ∨ cellBody (sweep fuel s i) x = none := by
  intro fuel
  induction fuel with
  | zero => intro s i x; left; rfl
  | succ k ih =>
    intro s i x
    simp only [sweep]
    by_cases h0 : strongCount s i = 0
    · rw [if_pos h0]
      cases hb : cellBody s i with
      | none => left; rfl
      | some b =>
        obtain ⟨c, hc, hcb⟩ := cellBody_some_get s i b hb
        cases b with
        | owned v =>
          by_cases hxi : x = i
          · subst hxi
            right
            exact setDead_cellBody_self s x c hc
          · left
            exact setDead_cellBody_ne s i x hxi
        | ref w o =>
          rcases ih (setDead s i) o x with h | h
          · by_cases hxi : x = i
            · subst hxi
              right
              rw [h]
              exact setDead_cellBody_self s x c hc
            · left
              rw [h]
              exact setDead_cellBody_ne s i x hxi
          · right
            exact h
    · rw [if_neg h0]
      left
      rfl

/-! ## Invariant preservation through `sweep` -/

theorem CellOk_congr {V W : Type} (s s' : State V W) (j : Nat)
    (h1 : strongCount s' j = strongCount s j)
    (h2 : cellBody s' j = cellBody s j)
    (h3 : cellDeallocs s' j = cellDeallocs s j)
    (h : CellOk s j) : CellOk s' j := by
  unfold CellOk at h ⊢
  rw [h1, h2, h3]
  exact h

theorem sweep_inv {V W : Type} :
    ∀ (fuel : Nat) (s : State V W) (i : Nat), i < fuel →
      EdgesBelow s →
      (∀ j, j < s.cells.length → j ≠ i → CellOk s j) →
      (CellOk s i ∨ (strongCount s i = 0 ∧ (cellBody s i).isSome ∧ cellDeallocs s i = 0)) →
      Inv (sweep fuel s i) := by
  intro fuel
  induction fuel with
  | zero => intro s i h; omega
  | succ k ih =>
    intro s i hfuel hE hOthers hI
    simp only [sweep]
    by_cases h0 : strongCount s i = 0
    · rw [if_pos h0]
      cases hb : cellBody s i with
      | none =>
        refine ⟨hE, ?_⟩
        intro j hj
        by_cases hji : j = i
        · subst hji
          rcases hI with h | h
          · exact h
          · rw [hb] at h
            simp at h
        · exact hOthers j hj hji
      | some b =>
        obtain ⟨c, hc, hcb⟩ := cellBody_some_get s i b hb
        have hPend : strongCount s i = 0 ∧ (cellBody s i).isSome ∧ cellDeallocs s i = 0 := by
          rcases hI with h | h
          · rcases h with ⟨hcnt, _, _⟩ | ⟨_, hbo, _⟩
            · omega
            · rw [hb] at hbo
              exact Option.noConfusion hbo
          · exact h
        have hdz : c.deallocs = 0 := by
          have h1 := cellDeallocs_eq_of_get s i c hc
          have h2 := hPend.2.2
          omega
        cases b with
        | owned v =>
          have hnotref : ∀ w o, c.body ≠ some (CellKind.ref w o) := by
            intro w o h
            rw [hcb] at h
            simp at h
          refine ⟨setDead_edges s i hE, ?_⟩
          intro j hj
          rw [setDead_length] at hj
          by_cases hji : j = i
          · subst hji
            right
            refine ⟨?_, setDead_cellBody_self s j c hc, ?_⟩
            · unfold strongCount
              rw [setDead_cellExt, setDead_childRefs_not_ref s j c hc hnotref]
              exact h0
            · rw [setDead_cellDeallocs_self s j c hc, hdz]
          · apply CellOk_congr s (setDead s i) j ?_ (setDead_cellBody_ne s i j hji)
              (setDead_cellDeallocs_ne s i j hji) (hOthers j hj hji)
            unfold strongCount
            rw [setDead_cellExt, setDead_childRefs_not_ref s i c hc hnotref]
        | ref w o =>
          have ho : o < i := hE i c hc w o hcb
          have hilen : i < s.cells.length := get_lt_length s i c hc
          have holen : o < s.cells.length := by omega
          have hcr := setDead_childRefs_ref s i c w o hc hcb
          apply ih (setDead s i) o (by omega) (setDead_edges s i hE)
          · intro j hj hjo
            rw [setDead_length] at hj
            by_cases hji : j = i
            · subst hji
              right
              refine ⟨?_, setDead_cellBody_self s j c hc, ?_⟩
              · unfold strongCount
                rw [setDead_cellExt, hcr.2 j (by omega)]
                exact h0
              · rw [setDead_cellDeallocs_self s j c hc, hdz]
            · apply CellOk_congr s (setDead s i) j ?_ (setDead_cellBody_ne s i j hji)
                (setDead_cellDeallocs_ne s i j hji) (hOthers j hj hji)
              unfold strongCount
              rw [setDead_cellExt, hcr.2 j hjo]
          · have hOko : CellOk s o := hOthers o holen (by omega)
            have hchild : 1 ≤ childRefs s o := childRefs_child s i o c w hc hcb
            rcases hOko with ⟨hcnt, hbo, hdo⟩ | ⟨hcnt, _, _⟩
            · have hcount : strongCount (setDead s i) o + 1 = strongCount s o := by
                unfold strongCount
                rw [setDead_cellExt]
                omega
              by_cases hzz : strongCount (setDead s i) o = 0
              · right
                refine ⟨hzz, ?_, ?_⟩
                · rw [setDead_cellBody_ne s i o (by omega)]
                  exact hbo
                · rw [setDead_cellDeallocs_ne s i o (by omega)]
                  exact hdo
              · left
                left
                refine ⟨by omega, ?_, ?_⟩
                · rw [setDead_cellBody_ne s i o (by omega)]
                  exact hbo
                · rw [setDead_cellDeallocs_ne s i o (by omega)]
                  exact hdo
            · exfalso
              unfold strongCount at hcnt
              omega
    · rw [if_neg h0]
      refine ⟨hE, ?_⟩
      intro j hj
      by_cases hji : j = i
      · subst hji
        rcases hI with h | h
        · exact h
        · exact absurd h.1 h0
      · exact hOthers j hj hji


/-! ## Edges and accessor congruence helpers -/

theorem edges_iff {V W : Type} (s : State V W) :
    EdgesBelow s ↔ ∀ j w o, cellBody s j = some (CellKind.ref w o) → o < j := by
  constructor
  · intro hE j w o hb
    obtain ⟨c, hc, hcb⟩ := cellBody_some_get s j _ hb
    exact hE j c hc w o hcb
  · intro h j c hc w o hb
    exact h j w o (by rw [cellBody_eq_of_get s j c hc]; exact hb)

theorem accessors_congr_of_get {V W : Type} (s s' : State V W) (x : Nat)
    (h : s'.cells.get? x = s.cells.get? x) :
    cellExt s' x = cellExt s x ∧ cellBody s' x = cellBody s x
      ∧ cellDeallocs s' x = cellDeallocs s x ∧ cellLock s' x = cellLock s x := by
  unfold cellExt cellBody cellDeallocs cellLock
  rw [h]
  exact ⟨rfl, rfl, rfl, rfl⟩

theorem cellBody_invalid {V W : Type} (s : State V W) (x : Nat)
    (h : s.cells.length ≤ x) : cellBody s x = none := by
  unfold cellBody
  rw [List.get?_eq_none.mpr h]
  rfl

theorem cellBody_some_lt {V W : Type} (s : State V W) (x : Nat) (b : CellKind V W)
    (h : cellBody s x = some b) : x < s.cells.length := by
  obtain ⟨c, hc, _⟩ := cellBody_some_get s x b h
  exact get_lt_length s x c hc

/-! ## Invariant preservation through each operation -/

theorem bind_instance_inv {V W : Type} (s : State V W) (v : V) (hInv : Inv s) :
    Inv (bind_instance s v) := by
  obtain ⟨hE, hOk⟩ := hInv
  constructor
  · rw [edges_iff]
    intro j w o hb
    by_cases hj : j = s.cells.length
    · subst hj
      have hnew : cellBody (bind_instance s v) s.cells.length
          = some (CellKind.owned v) := by
        unfold cellBody
        rw [bind_instance_get_new]
        rfl
      rw [hnew] at hb
      simp at hb
    · have hsame := (accessors_congr_of_get s (bind_instance s v) j
        (bind_instance_get_ne s v j hj)).2.1
      rw [hsame] at hb
      exact (edges_iff s).mp hE j w o hb
  · intro j hj
    rw [bind_instance_length] at hj
    by_cases hjl : j = s.cells.length
    · subst hjl
      left
      refine ⟨?_, ?_, ?_⟩
      · unfold strongCount
        have he : cellExt (bind_instance s v) s.cells.length = 1 := by
          unfold cellExt
          rw [bind_instance_get_new]
          rfl
        rw [he, bind_instance_childRefs]
        omega
      · have hnew : cellBody (bind_instance s v) s.cells.length
            = some (CellKind.owned v) := by
          unfold cellBody
          rw [bind_instance_get_new]
          rfl
        rw [hnew]
        rfl
      · unfold cellDeallocs
        rw [bind_instance_get_new]
        rfl
    · have hjlt : j < s.cells.length := by omega
      obtain ⟨he, hbo, hd, _⟩ := accessors_congr_of_get s (bind_instance s v) j
        (bind_instance_get_ne s v j hjl)
      apply CellOk_congr s (bind_instance s v) j ?_ hbo hd (hOk j hjlt)
      unfold strongCount
      rw [he, bind_instance_childRefs]

theorem bind_owned_instance_inv {V W : Type} (s : State V W) (w : W) (i : Nat)
    (hext : 0 < cellExt s i) (hInv : Inv s) : Inv (bind_owned_instance s w i) := by
  obtain ⟨hE, hOk⟩ := hInv
  obtain ⟨c, hc⟩ := cellExt_valid s i hext
  have hilen : i < s.cells.length := get_lt_length s i c hc
  have hcext : 0 < c.ext := by
    have := cellExt_eq_of_get s i c hc
    omega
  constructor
  · rw [edges_iff]
    intro j w' o hb
    by_cases hj : j = s.cells.length
    · subst hj
      have hnew : cellBody (bind_owned_instance s w i) s.cells.length
          = some (CellKind.ref (transmuteErase w) i) := by
        unfold cellBody
        rw [bind_owned_instance_get_new]
        rfl
      rw [hnew] at hb
      injection hb with hb
      cases hb
      omega
    · rw [bind_owned_instance_cellBody s w i j hj] at hb
      exact (edges_iff s).mp hE j w' o hb
  · intro j hj
    rw [bind_owned_instance_length] at hj
    by_cases hjl : j = s.cells.length
    · subst hjl
      left
      refine ⟨?_, ?_, ?_⟩
      · unfold strongCount
        have he : cellExt (bind_owned_instance s w i) s.cells.length = 1 := by
          unfold cellExt
          rw [bind_owned_instance_get_new]
          rfl
        rw [he]
        omega
      · have hnew : cellBody (bind_owned_instance s w i) s.cells.length
            = some (CellKind.ref (transmuteErase w) i) := by
          unfold cellBody
          rw [bind_owned_instance_get_new]
          rfl
        rw [hnew]
        rfl
      · unfold cellDeallocs
        rw [bind_owned_instance_get_new]
        rfl
    · have hjlt : j < s.cells.length := by omega
      by_cases hji : j = i
      · subst hji
        have hcnt : strongCount (bind_owned_instance s w j) j = strongCount s j :=
          bind_owned_instance_strongCount_self s w j c hc hcext
        have hcntpos : 0 < strongCount s j := by
          have := cellExt_eq_of_get s j c hc
          unfold strongCount
          omega
        rcases hOk j hjlt with ⟨_, hbo, hd⟩ | ⟨hz, _, _⟩
        · left
          refine ⟨by omega, ?_, ?_⟩
          · rw [bind_owned_instance_cellBody s w j j hjl]
            exact hbo
          · rw [bind_owned_instance_cellDeallocs s w j j hjl]
            exact hd
        · omega
      · apply CellOk_congr s (bind_owned_instance s w i) j ?_
          (bind_owned_instance_cellBody s w i j hjl)
          (bind_owned_instance_cellDeallocs s w i j hjl) (hOk j hjlt)
        unfold strongCount
        rw [bind_owned_instance_cellExt_ne s w i j hji hjl,
          bind_owned_instance_childRefs s w i j, if_neg (fun hh => hji hh.symm)]
        omega

theorem cloneHandle_inv {V W : Type} (s : State V W) (i : Nat)
    (hpos : 0 < strongCount s i) (hInv : Inv s) : Inv (cloneHandle s i) := by
  obtain ⟨hE, hOk⟩ := hInv
  have hilen : i < s.cells.length := strongCount_pos_valid s i hE hpos
  obtain ⟨c, hc⟩ := get_of_lt_length s i hilen
  constructor
  · rw [edges_iff]
    intro j w o hb
    rw [cloneHandle_cellBody s i j] at hb
    exact (edges_iff s).mp hE j w o hb
  · intro j hj
    rw [cloneHandle_length] at hj
    by_cases hji : j = i
    · subst hji
      rcases hOk j hj with ⟨_, hbo, hd⟩ | ⟨hz, _, _⟩
      · left
        refine ⟨?_, ?_, ?_⟩
        · rw [cloneHandle_strongCount_self s j c hc]
          omega
        · rw [cloneHandle_cellBody s j j]
          exact hbo
        · rw [cloneHandle_cellDeallocs s j j]
          exact hd
      · omega
    · apply CellOk_congr s (cloneHandle s i) j
        (cloneHandle_strongCount_ne s i j hji) (cloneHandle_cellBody s i j)
        (cloneHandle_cellDeallocs s i j) (hOk j hj)

theorem dropHandle_inv {V W : Type} (s : State V W) (i : Nat)
    (hext : 0 < cellExt s i) (hInv : Inv s) : Inv (dropHandle s i) := by
  obtain ⟨hE, hOk⟩ := hInv
  obtain ⟨c, hc⟩ := cellExt_valid s i hext
  have hilen : i < s.cells.length := get_lt_length s i c hc
  have hcext : 0 < c.ext := by
    have := cellExt_eq_of_get s i c hc
    omega
  unfold dropHandle
  apply sweep_inv (i + 1) _ i (by omega)
  · rw [edges_iff]
    intro j w o hb
    rw [updateCell_cellBody_of_body s i (fun c => { c with ext := c.ext - 1 })
      (fun _ => rfl) j] at hb
    exact (edges_iff s).mp hE j w o hb
  · intro j hj hji
    rw [updateCell_length] at hj
    apply CellOk_congr s _ j ?_
      (updateCell_cellBody_of_body s i (fun c => { c with ext := c.ext - 1 })
        (fun _ => rfl) j)
      (updateCell_cellDeallocs_of_deallocs s i (fun c => { c with ext := c.ext - 1 })
        (fun _ => rfl) j) (hOk j hj)
    unfold strongCount
    rw [updateCell_childRefs_of_body s i (fun c => { c with ext := c.ext - 1 })
      (fun _ => rfl) j]
    unfold cellExt
    rw [updateCell_get_ne s i j _ (fun hh => hji hh.symm)]
  · have hbody : cellBody (updateCell s i (fun c => { c with ext := c.ext - 1 })) i
        = cellBody s i :=
      updateCell_cellBody_of_body s i (fun c => { c with ext := c.ext - 1 }) (fun _ => rfl) i
    have hdeall : cellDeallocs (updateCell s i (fun c => { c with ext := c.ext - 1 })) i
        = cellDeallocs s i :=
      updateCell_cellDeallocs_of_deallocs s i (fun c => { c with ext := c.ext - 1 })
        (fun _ => rfl) i
    have hcnt : strongCount (updateCell s i (fun c => { c with ext := c.ext - 1 })) i + 1
        = strongCount s i := by
      unfold strongCount
      rw [updateCell_childRefs_of_body s i (fun c => { c with ext := c.ext - 1 })
        (fun _ => rfl) i]
      have h1 : cellExt (updateCell s i (fun c => { c with ext := c.ext - 1 })) i
          = c.ext - 1 := by
        unfold cellExt
        rw [updateCell_get_self s i _ c hc]
        rfl
      have h2 := cellExt_eq_of_get s i c hc
      omega
    rcases hOk i hilen with ⟨_, hbo, hd⟩ | ⟨hz, _, _⟩
    · by_cases hzz : strongCount (updateCell s i (fun c => { c with ext := c.ext - 1 })) i = 0
      · right
        refine ⟨hzz, ?_, ?_⟩
        · rw [hbody]
          exact hbo
        · rw [hdeall]
          exact hd
      · left
        left
        refine ⟨by omega, ?_, ?_⟩
        · rw [hbody]
          exact hbo
        · rw [hdeall]
          exact hd
    · have h2 := cellExt_eq_of_get s i c hc
      unfold strongCount at hz
      omega


/-! ## New-cell accessor lemmas -/

theorem bind_instance_cellBody_new {V W : Type} (s : State V W) (v : V) :
    cellBody (bind_instance s v) s.cells.length = some (CellKind.owned v) := by
  unfold cellBody
  rw [bind_instance_get_new]
  rfl

theorem bind_owned_instance_cellBody_new {V W : Type} (s : State V W) (w : W) (i : Nat) :
    cellBody (bind_owned_instance s w i) s.cells.length
      = some (CellKind.ref (transmuteErase w) i) := by
  unfold cellBody
  rw [bind_owned_instance_get_new]
  rfl

theorem bind_owned_instance_cellExt_new {V W : Type} (s : State V W) (w : W) (i : Nat) :
    cellExt (bind_owned_instance s w i) s.cells.length = 1 := by
  unfold cellExt
  rw [bind_owned_instance_get_new]
  rfl

/-! ## Lock operations preserve the invariant -/

theorem lockUpdate_inv {V W : Type} (s : State V W) (i : Nat) (g : Option Nat)
    (hInv : Inv s) : Inv (updateCell s i (fun c => { c with lockOwner := g })) := by
  obtain ⟨hE, hOk⟩ := hInv
  constructor
  · rw [edges_iff]
    intro j w o hb
    rw [updateCell_cellBody_of_body s i (fun c => { c with lockOwner := g })
      (fun _ => rfl) j] at hb
    exact (edges_iff s).mp hE j w o hb
  · intro j hj
    rw [updateCell_length] at hj
    apply CellOk_congr s _ j ?_
      (updateCell_cellBody_of_body s i (fun c => { c with lockOwner := g })
        (fun _ => rfl) j)
      (updateCell_cellDeallocs_of_deallocs s i (fun c => { c with lockOwner := g })
        (fun _ => rfl) j) (hOk j hj)
    unfold strongCount
    rw [updateCell_childRefs_of_body s i (fun c => { c with lockOwner := g })
      (fun _ => rfl) j,
      updateCell_cellExt_of_ext s i (fun c => { c with lockOwner := g })
        (fun _ => rfl) j]

theorem mutate_childRefs {V W : Type} (s : State V W) (i : Nat) (v v' : V)
    (c : Cell V W) (hc : s.cells.get? i = some c)
    (hcb : c.body = some (CellKind.owned v)) (x : Nat) :
    childRefs (updateCell s i (fun c => { c with body := some (CellKind.owned v') })) x
      = childRefs s x := by
  unfold childRefs updateCell
  rw [hc]
  have hold : refToB x c = false := by
    unfold refToB
    rw [hcb]
  have hnew : refToB x ({ c with body := some (CellKind.owned v') } : Cell V W)
      = false := rfl
  have hcp := countP_set_add (refToB x) s.cells i c
    ({ c with body := some (CellKind.owned v') }) hc
  rw [hold, hnew] at hcp
  simpa using hcp

theorem mutate_inv {V W : Type} (s : State V W) (i : Nat) (v v' : V)
    (c : Cell V W) (hc : s.cells.get? i = some c)
    (hcb : c.body = some (CellKind.owned v)) (hInv : Inv s) :
    Inv (updateCell s i (fun c => { c with body := some (CellKind.owned v') })) := by
  obtain ⟨hE, hOk⟩ := hInv
  have hilen : i < s.cells.length := get_lt_length s i c hc
  have hbodyself : cellBody
      (updateCell s i (fun c => { c with body := some (CellKind.owned v') })) i
      = some (CellKind.owned v') := by
    unfold cellBody
    rw [updateCell_get_self s i _ c hc]
    rfl
  constructor
  · rw [edges_iff]
    intro j w o hb
    by_cases hji : j = i
    · subst hji
      rw [hbodyself] at hb
      simp at hb
    · unfold cellBody at hb
      rw [updateCell_get_ne s i j _ (fun hh => hji hh.symm)] at hb
      exact (edges_iff s).mp hE j w o hb
  · intro j hj
    rw [updateCell_length] at hj
    by_cases hji : j = i
    · subst hji
      rcases hOk j hj with ⟨hcnt, _, hd⟩ | ⟨_, hbo, _⟩
      · left
        refine ⟨?_, ?_, ?_⟩
        · unfold strongCount
          rw [mutate_childRefs s j v v' c hc hcb j,
            updateCell_cellExt_of_ext s j (fun c => { c with body := some (CellKind.owned v') })
              (fun _ => rfl) j]
          exact hcnt
        · rw [hbodyself]
          rfl
        · rw [updateCell_cellDeallocs_of_deallocs s j
            (fun c => { c with body := some (CellKind.owned v') }) (fun _ => rfl) j]
          exact hd
      · rw [cellBody_eq_of_get s j c hc] at hbo
        rw [hcb] at hbo
        exact Option.noConfusion hbo
    · have hbne : cellBody
          (updateCell s i (fun c => { c with body := some (CellKind.owned v') })) j
          = cellBody s j := by
        unfold cellBody
        rw [updateCell_get_ne s i j _ (fun hh => hji hh.symm)]
      apply CellOk_congr s _ j ?_ hbne
        (updateCell_cellDeallocs_of_deallocs s i
          (fun c => { c with body := some (CellKind.owned v') }) (fun _ => rfl) j)
        (hOk j hj)
      unfold strongCount
      rw [mutate_childRefs s i v v' c hc hcb j,
        updateCell_cellExt_of_ext s i (fun c => { c with body := some (CellKind.owned v') })
          (fun _ => rfl) j]

/-! ## The invariant holds in every reachable state -/

theorem applyOp_inv {V W : Type} (s s' : State V W) (op : Op V W)
    (hInv : Inv s) (h : applyOp s op = some s') : Inv s' := by
  cases op with
  | bind v =>
    simp only [applyOp, Option.some.injEq] at h
    subst h
    exact bind_instance_inv s v hInv
  | bindOwned w i =>
    simp only [applyOp] at h
    by_cases hext : 0 < cellExt s i
    · rw [if_pos hext, Option.some.injEq] at h
      subst h
      exact bind_owned_instance_inv s w i hext hInv
    · rw [if_neg hext] at h
      exact Option.noConfusion h
  | clone i =>
    simp only [applyOp] at h
    by_cases hpos : 0 < strongCount s i
    · rw [if_pos hpos, Option.some.injEq] at h
      subst h
      exact cloneHandle_inv s i hpos hInv
    · rw [if_neg hpos] at h
      exact Option.noConfusion h
  | drop i =>
    simp only [applyOp] at h
    by_cases hext : 0 < cellExt s i
    · rw [if_pos hext, Option.some.injEq] at h
      subst h
      exact dropHandle_inv s i hext hInv
    · rw [if_neg hext] at h
      exact Option.noConfusion h
  | acquire t i =>
    simp only [applyOp] at h
    by_cases hcond : cellLock s i = none ∧ 0 < strongCount s i
    · rw [if_pos hcond, Option.some.injEq] at h
      subst h
      exact lockUpdate_inv s i (some t) hInv
    · rw [if_neg hcond] at h
      exact Option.noConfusion h
  | release t i =>
    simp only [applyOp] at h
    by_cases hcond : cellLock s i = some t
    · rw [if_pos hcond, Option.some.injEq] at h
      subst h
      exact lockUpdate_inv s i none hInv
    · rw [if_neg hcond] at h
      exact Option.noConfusion h
  | mutate t i f =>
    simp only [applyOp] at h
    by_cases hcond : cellLock s i = some t
    · rw [if_pos hcond] at h
      cases hbody : cellBody s i with
      | none =>
        rw [hbody] at h
        exact Option.noConfusion h
      | some b =>
        rw [hbody] at h
        cases b with
        | owned v =>
          simp only [Option.some.injEq] at h
          subst h
          obtain ⟨c, hc, hcb⟩ := cellBody_some_get s i _ hbody
          exact mutate_inv s i v (f v) c hc hcb hInv
        | ref w o =>
          exact Option.noConfusion h
    · rw [if_neg hcond] at h
      exact Option.noConfusion h

theorem initState_inv {V W : Type} : Inv (initState V W) := by
  constructor
  · intro j c hj
    simp [initState] at hj
  · intro i hi
    simp [initState] at hi

theorem run_inv {V W : Type} :
    ∀ (ops : List (Op V W)) (s s' : State V W), Inv s → run s ops = some s' → Inv s' := by
  intro ops
  induction ops with
  | nil =>
    intro s s' hInv h
    simp only [run, Option.some.injEq] at h
    subst h
    exact hInv
  | cons op rest ih =>
    intro s s' hInv h
    simp only [run] at h
    cases hap : applyOp s op with
    | none => rw [hap] at h; exact Option.noConfusion h
    | some s₁ =>
      rw [hap] at h
      exact ih s₁ s' (applyOp_inv s s₁ op hInv hap) h

theorem reachable_inv {V W : Type} (ops : List (Op V W)) (s : State V W)
    (h : run (initState V W) ops = some s) : Inv s :=
  run_inv ops (initState V W) s initState_inv h


/-! ## Length monotonicity and body preservation along runs -/

theorem applyOp_length_mono {V W : Type} (s s' : State V W) (op : Op V W)
    (h : applyOp s op = some s') : s.cells.length ≤ s'.cells.length := by
  cases op with
  | bind v =>
    simp only [applyOp, Option.some.injEq] at h
    subst h
    rw [bind_instance_length]
    omega
  | bindOwned w i =>
    simp only [applyOp] at h
    by_cases hext : 0 < cellExt s i
    · rw [if_pos hext, Option.some.injEq] at h
      subst h
      rw [bind_owned_instance_length]
      omega
    · rw [if_neg hext] at h
      exact Option.noConfusion h
  | clone i =>
    simp only [applyOp] at h
    by_cases hpos : 0 < strongCount s i
    · rw [if_pos hpos, Option.some.injEq] at h
      subst h
      rw [cloneHandle_length]
    · rw [if_neg hpos] at h
      exact Option.noConfusion h
  | drop i =>
    simp only [applyOp] at h
    by_cases hext : 0 < cellExt s i
    · rw [if_pos hext, Option.some.injEq] at h
      subst h
      unfold dropHandle
      rw [sweep_length, updateCell_length]
    · rw [if_neg hext] at h
      exact Option.noConfusion h
  | acquire t i =>
    simp only [applyOp] at h
    by_cases hcond : cellLock s i = none ∧ 0 < strongCount s i
    · rw [if_pos hcond, Option.some.injEq] at h
      subst h
      rw [updateCell_length]
    · rw [if_neg hcond] at h
      exact Option.noConfusion h
  | release t i =>
    simp only [applyOp] at h
    by_cases hcond : cellLock s i = some t
    · rw [if_pos hcond, Option.some.injEq] at h
      subst h
      rw [updateCell_length]
    · rw [if_neg hcond] at h
      exact Option.noConfusion h
  | mutate t i f =>
    simp only [applyOp] at h
    by_cases hcond : cellLock s i = some t
    · rw [if_pos hcond] at h
      cases hbody : cellBody s i with
      | none =>
        rw [hbody] at h
        exact Option.noConfusion h
      | some b =>
        rw [hbody] at h
        cases b with
        | owned v =>
          simp only [Option.some.injEq] at h
          subst h
          rw [updateCell_length]
        | ref w o =>
          exact Option.noConfusion h
    · rw [if_neg hcond] at h
      exact Option.noConfusion h

theorem applyOp_ref_pres {V W : Type} (s s' : State V W) (op : Op V W) (x o : Nat) (w : W)
    (h : applyOp s op = some s') (hb : cellBody s x = some (CellKind.ref w o)) :
    cellBody s' x = some (CellKind.ref w o) ∨ cellBody s' x = none := by
  have hxlen : x < s.cells.length := cellBody_some_lt s x _ hb
  cases op with
  | bind v =>
    simp only [applyOp, Option.some.injEq] at h
    subst h
    left
    rw [(accessors_congr_of_get s (bind_instance s v) x
      (bind_instance_get_ne s v x (by omega))).2.1]
    exact hb
  | bindOwned w' i =>
    simp only [applyOp] at h
    by_cases hext : 0 < cellExt s i
    · rw [if_pos hext, Option.some.injEq] at h
      subst h
      left
      rw [bind_owned_instance_cellBody s w' i x (by omega)]
      exact hb
    · rw [if_neg hext] at h
      exact Option.noConfusion h
  | clone i =>
    simp only [applyOp] at h
    by_cases hpos : 0 < strongCount s i
    · rw [if_pos hpos, Option.some.injEq] at h
      subst h
      left
      rw [cloneHandle_cellBody]
      exact hb
    · rw [if_neg hpos] at h
      exact Option.noConfusion h
  | drop i =>
    simp only [applyOp] at h
    by_cases hext : 0 < cellExt s i
    · rw [if_pos hext, Option.some.injEq] at h
      subst h
      unfold dropHandle
      have hmid : cellBody (updateCell s i (fun c => { c with ext := c.ext - 1 })) x
          = some (CellKind.ref w o) := by
        rw [updateCell_cellBody_of_body s i (fun c => { c with ext := c.ext - 1 })
          (fun _ => rfl) x]
        exact hb
      rcases sweep_cellBody_cases (i + 1)
        (updateCell s i (fun c => { c with ext := c.ext - 1 })) i x with hcase | hcase
      · left
        rw [hcase]
        exact hmid
      · right
        exact hcase
    · rw [if_neg hext] at h
      exact Option.noConfusion h
  | acquire t i =>
    simp only [applyOp] at h
    by_cases hcond : cellLock s i = none ∧ 0 < strongCount s i
    · rw [if_pos hcond, Option.some.injEq] at h
      subst h
      left
      rw [updateCell_cellBody_of_body s i (fun c => { c with lockOwner := some t })
        (fun _ => rfl) x]
      exact hb
    · rw [if_neg hcond] at h
      exact Option.noConfusion h
  | release t i =>
    simp only [applyOp] at h
    by_cases hcond : cellLock s i = some t
    · rw [if_pos hcond, Option.some.injEq] at h
      subst h
      left
      rw [updateCell_cellBody_of_body s i (fun c => { c with lockOwner := none })
        (fun _ => rfl) x]
      exact hb
    · rw [if_neg hcond] at h
      exact Option.noConfusion h
  | mutate t i f =>
    simp only [applyOp] at h
    by_cases hcond : cellLock s i = some t
    · rw [if_pos hcond] at h
      cases hbody : cellBody s i with
      | none =>
        rw [hbody] at h
        exact Option.noConfusion h
      | some b =>
        rw [hbody] at h
        cases b with
        | owned v =>
          simp only [Option.some.injEq] at h
          subst h
          by_cases hxi : x = i
          · subst hxi
            rw [hbody] at hb
            injection hb with hb
            exact absurd hb (by simp)
          · left
            unfold cellBody
            rw [updateCell_get_ne s i x _ (fun hh => hxi hh.symm)]
            exact hb
        | ref w' o' =>
          exact Option.noConfusion h
    · rw [if_neg hcond] at h
      exact Option.noConfusion h

theorem applyOp_none_pres {V W : Type} (s s' : State V W) (op : Op V W) (x : Nat)
    (h : applyOp s op = some s') (hxlen : x < s.cells.length)
    (hb : cellBody s x = none) : cellBody s' x = none := by
  cases op with
  | bind v =>
    simp only [applyOp, Option.some.injEq] at h
    subst h
    rw [(accessors_congr_of_get s (bind_instance s v) x
      (bind_instance_get_ne s v x (by omega))).2.1]
    exact hb
  | bindOwned w' i =>
    simp only [applyOp] at h
    by_cases hext : 0 < cellExt s i
    · rw [if_pos hext, Option.some.injEq] at h
      subst h
      rw [bind_owned_instance_cellBody s w' i x (by omega)]
      exact hb
    · rw [if_neg hext] at h
      exact Option.noConfusion h
  | clone i =>
    simp only [applyOp] at h
    by_cases hpos : 0 < strongCount s i
    · rw [if_pos hpos, Option.some.injEq] at h
      subst h
      rw [cloneHandle_cellBody]
      exact hb
    · rw [if_neg hpos] at h
      exact Option.noConfusion h
  | drop i =>
    simp only [applyOp] at h
    by_cases hext : 0 < cellExt s i
    · rw [if_pos hext, Option.some.injEq] at h
      subst h
      unfold dropHandle
      have hmid : cellBody (updateCell s i (fun c => { c with ext := c.ext - 1 })) x
          = none := by
        rw [updateCell_cellBody_of_body s i (fun c => { c with ext := c.ext - 1 })
          (fun _ => rfl) x]
        exact hb
      rcases sweep_cellBody_cases (i + 1)
        (updateCell s i (fun c => { c with ext := c.ext - 1 })) i x with hcase | hcase
      · rw [hcase]
        exact hmid
      · exact hcase
    · rw [if_neg hext] at h
      exact Option.noConfusion h
  | acquire t i =>
    simp only [applyOp] at h
    by_cases hcond : cellLock s i = none ∧ 0 < strongCount s i
    · rw [if_pos hcond, Option.some.injEq] at h
      subst h
      rw [updateCell_cellBody_of_body s i (fun c => { c with lockOwner := some t })
        (fun _ => rfl) x]
      exact hb
    · rw [if_neg hcond] at h
      exact Option.noConfusion h
  | release t i =>
    simp only [applyOp] at h
    by_cases hcond : cellLock s i = some t
    · rw [if_pos hcond, Option.some.injEq] at h
      subst h
      rw [updateCell_cellBody_of_body s i (fun c => { c with lockOwner := none })
        (fun _ => rfl) x]
      exact hb
    · rw [if_neg hcond] at h
      exact Option.noConfusion h
  | mutate t i f =>
    simp only [applyOp] at h
    by_cases hcond : cellLock s i = some t
    · rw [if_pos hcond] at h
      cases hbody : cellBody s i with
      | none =>
        rw [hbody] at h
        exact Option.noConfusion h
      | some b =>
        rw [hbody] at h
        cases b with
        | owned v =>
          simp only [Option.some.injEq] at h
          subst h
          by_cases hxi : x = i
          · subst hxi
            rw [hbody] at hb
            exact Option.noConfusion hb
          · unfold cellBody
            rw [updateCell_get_ne s i x _ (fun hh => hxi hh.symm)]
            exact hb
        | ref w' o' =>
          exact Option.noConfusion h
    · rw [if_neg hcond] at h
      exact Option.noConfusion h

theorem run_none_pres {V W : Type} :
    ∀ (ops : List (Op V W)) (s s' : State V W) (x : Nat),
      run s ops = some s' → x < s.cells.length → cellBody s x = none →
      cellBody s' x = none := by
  intro ops
  induction ops with
  | nil =>
    intro s s' x h hx hb
    simp only [run, Option.some.injEq] at h
    subst h
    exact hb
  | cons op rest ih =>
    intro s s' x h hx hb
    simp only [run] at h
    cases hap : applyOp s op with
    | none => rw [hap] at h; exact Option.noConfusion h
    | some s₁ =>
      rw [hap] at h
      have hlen := applyOp_length_mono s s₁ op hap
      exact ih s₁ s' x h (by omega) (applyOp_none_pres s s₁ op x hap hx hb)

theorem run_ref_pres {V W : Type} :
    ∀ (ops : List (Op V W)) (s s' : State V W) (x o : Nat) (w : W),
      run s ops = some s' → cellBody s x = some (CellKind.ref w o) →
      cellBody s' x = some (CellKind.ref w o) ∨ cellBody s' x = none := by
  intro ops
  induction ops with
  | nil =>
    intro s s' x o w h hb
    simp only [run, Option.some.injEq] at h
    subst h
    left
    exact hb
  | cons op rest ih =>
    intro s s' x o w h hb
    have hxlen : x < s.cells.length := cellBody_some_lt s x _ hb
    simp only [run] at h
    cases hap : applyOp s op with
    | none => rw [hap] at h; exact Option.noConfusion h
    | some s₁ =>
      rw [hap] at h
      have hlen := applyOp_length_mono s s₁ op hap
      rcases applyOp_ref_pres s s₁ op x o w hap hb with hcase | hcase
      · exact ih s₁ s' x o w h hcase
      · right
        exact run_none_pres rest s₁ s' x h (by omega) hcase


end Pyoil3

/-!
## Mutex discipline model

Both generated cell kinds guard their `RustInstance` behind
`Arc<Mutex<RustInstance>>`, so the payload of a cell is reachable only
through `Mutex::lock`, which yields the guard to one thread at a time.
This section models the `std::sync::Mutex` protocol for one cell under an
arbitrary interleaving of threads: a thread acquires the lock only when no
thread holds it, may access (read or mutate) the guarded payload only while
holding the guard, and releases it afterwards.
-/

namespace Pyoil3.MutexModel

/-- The state of one lock-guarded cell under concurrent access: the
`Mutex` owner, which threads currently hold the guard (`holding.get? t`),
and the guarded payload. -/
structure MState where
  lockOwner : Option Nat
  holding : List Bool
  payload : Nat
deriving Repr, DecidableEq

/-- Thread operations on the cell: block-until-acquire of the `Mutex`,
access (read or mutate) of the payload through the guard, and release. -/
inductive MOp where
  | acquire (t : Nat)
  | access (t : Nat) (f : Nat → Nat)
  | release (t : Nat)

/-- One interleaving step: `acquire` succeeds only when the lock is free,
`access` only while the thread holds the guard, `release` returns the
lock. -/
def mApply (s : MState) : MOp → Option MState
  | MOp.acquire t =>
    if s.lockOwner = none ∧ s.holding.get? t = some false then
      some { s with lockOwner := some t, holding := s.holding.set t true }
    else none
  | MOp.access t f =>
    if s.holding.get? t = some true then
      some { s with payload := f s.payload }
    else none
  | MOp.release t =>
    if s.holding.get? t = some true then
      some { s with lockOwner := none, holding := s.holding.set t false }
    else none

/-- Run an interleaving of thread steps. -/
def mRun (s : MState) : List MOp → Option MState
  | [] => some s
  | op :: ops =>
    match mApply s op with
    | none => none
    | some s₁ => mRun s₁ ops

/-- Initial state: `n` threads, none holding the guard, lock free. -/
def mInit (n : Nat) : MState := ⟨none, List.replicate n false, 0⟩

/-- Lock invariant: every thread holding the guard is the `Mutex` owner. -/
def MInv (s : MState) : Prop :=
  ∀ t, s.holding.get? t = some true → s.lockOwner = some t

theorem mApply_minv (s s' : MState) (op : MOp) (hInv : MInv s)
    (h : mApply s op = some s') : MInv s' := by
  cases op with
  | acquire t =>
    simp only [mApply] at h
    by_cases hcond : s.lockOwner = none ∧ s.holding.get? t = some false
    · rw [if_pos hcond, Option.some.injEq] at h
      subst h
      intro u hu
      by_cases hut : u = t
      · subst hut
        rfl
      · simp only at hu
        rw [List.get?_set_ne true s.holding (fun hh => hut hh.symm)] at hu
        have := hInv u hu
        rw [hcond.1] at this
        exact Option.noConfusion this
    · rw [if_neg hcond] at h
      exact Option.noConfusion h
  | access t f =>
    simp only [mApply] at h
    by_cases hcond : s.holding.get? t = some true
    · rw [if_pos hcond, Option.some.injEq] at h
      subst h
      intro u hu
      exact hInv u hu
    · rw [if_neg hcond] at h
      exact Option.noConfusion h
  | release t =>
    simp only [mApply] at h
    by_cases hcond : s.holding.get? t = some true
    · rw [if_pos hcond, Option.some.injEq] at h
      subst h
      intro u hu
      by_cases hut : u = t
      · subst hut
        simp only at hu
        have htlen : u < s.holding.length := (List.get?_eq_some.mp hcond).fst
        rw [List.get?_set_eq_of_lt false htlen] at hu
        simp at hu
      · simp only at hu
        rw [List.get?_set_ne false s.holding (fun hh => hut hh.symm)] at hu
        have h1 := hInv u hu
        have h2 := hInv t hcond
        rw [h1] at h2
        injection h2 with h2
        exact absurd h2 hut
    · rw [if_neg hcond] at h
      exact Option.noConfusion h

theorem mInit_minv (n : Nat) : MInv (mInit n) := by
  intro t ht
  simp only [mInit] at ht
  have hlen : t < (List.replicate n false).length := (List.get?_eq_some.mp ht).fst
  rw [List.get?_eq_get hlen] at ht
  rw [List.get_replicate] at ht
  exact Bool.noConfusion (Option.some.inj ht)

theorem mRun_minv :
    ∀ (ops : List MOp) (s s' : MState), MInv s → mRun s ops = some s' → MInv s' := by
  intro ops
  induction ops with
  | nil =>
    intro s s' hInv h
    simp only [mRun, Option.some.injEq] at h
    subst h
    exact hInv
  | cons op rest ih =>
    intro s s' hInv h
    simp only [mRun] at h
    cases hap : mApply s op with
    | none => rw [hap] at h; exact Option.noConfusion h
    | some s₁ =>
      rw [hap] at h
      exact ih s₁ s' (mApply_minv s s₁ op hInv hap) h

end Pyoil3.MutexModel

namespace Pyoil3


/-! ## `sweep` unfolding equations -/

theorem sweep_live {V W : Type} :
    ∀ (fuel : Nat) (s : State V W) (i : Nat), ¬ strongCount s i = 0 →
      sweep fuel s i = s := by
  intro fuel s i h
  cases fuel with
  | zero => rfl
  | succ k =>
    simp only [sweep]
    rw [if_neg h]

theorem sweep_owned {V W : Type} (fuel : Nat) (s : State V W) (i : Nat) (v : V)
    (hfuel : 1 ≤ fuel) (hz : strongCount s i = 0)
    (hb : cellBody s i = some (CellKind.owned v)) :
    sweep fuel s i = setDead s i := by
  cases fuel with
  | zero => omega
  | succ k =>
    simp only [sweep]
    rw [if_pos hz, hb]

theorem sweep_ref {V W : Type} (fuel : Nat) (s : State V W) (i o : Nat) (w : W)
    (hz : strongCount s i = 0) (hb : cellBody s i = some (CellKind.ref w o)) :
    sweep (fuel + 1) s i = sweep fuel (setDead s i) o := by
  simp only [sweep]
  rw [if_pos hz, hb]

theorem updateCell_cellExt_self {V W : Type} (s : State V W) (i : Nat)
    (g : Nat → Nat) (c : Cell V W) (hc : s.cells.get? i = some c) :
    cellExt (updateCell s i (fun c => { c with ext := g c.ext })) i = g c.ext := by
  unfold cellExt
  rw [updateCell_get_self s i _ c hc]
  rfl

/-! ## Dropping the last handle of a dependent cell -/

theorem dropRef_release {V W : Type} (s : State V W) (r o : Nat) (w : W)
    (hb : cellBody s r = some (CellKind.ref w o))
    (hx : cellExt s r = 1) (hcr : strongCount s r = 1)
    (hor : o ≠ r) (hsurv : 2 ≤ strongCount s o) :
    cellBody (dropHandle s r) o = cellBody s o
    ∧ cellDeallocs (dropHandle s r) o = cellDeallocs s o
    ∧ cellExt (dropHandle s r) o = cellExt s o
    ∧ strongCount (dropHandle s r) o + 1 = strongCount s o
    ∧ cellBody (dropHandle s r) r = none
    ∧ (∀ x, x ≠ r → x ≠ o →
        cellBody (dropHandle s r) x = cellBody s x
        ∧ cellExt (dropHandle s r) x = cellExt s x
        ∧ cellDeallocs (dropHandle s r) x = cellDeallocs s x
        ∧ childRefs (dropHandle s r) x = childRefs s x) := by
  obtain ⟨cr, hcr_get, hcrb⟩ := cellBody_some_get s r _ hb
  have hcrext : cr.ext = 1 := by
    have := cellExt_eq_of_get s r cr hcr_get
    omega
  set s₁ := updateCell s r (fun c => { c with ext := c.ext - 1 }) with hs₁
  have hs₁get : s₁.cells.get? r = some { cr with ext := cr.ext - 1 } :=
    updateCell_get_self s r _ cr hcr_get
  have hs₁childRefs : ∀ x, childRefs s₁ x = childRefs s x := fun x =>
    updateCell_childRefs_of_body s r (fun c => { c with ext := c.ext - 1 }) (fun _ => rfl) x
  have hs₁body : ∀ x, cellBody s₁ x = cellBody s x := fun x =>
    updateCell_cellBody_of_body s r (fun c => { c with ext := c.ext - 1 }) (fun _ => rfl) x
  have hs₁deall : ∀ x, cellDeallocs s₁ x = cellDeallocs s x := fun x =>
    updateCell_cellDeallocs_of_deallocs s r (fun c => { c with ext := c.ext - 1 })
      (fun _ => rfl) x
  have hs₁ext_ne : ∀ x, x ≠ r → cellExt s₁ x = cellExt s x := fun x hxr => by
    unfold cellExt
    rw [updateCell_get_ne s r x _ (fun hh => hxr hh.symm)]
  have hs₁ext_r : cellExt s₁ r = 0 := by
    rw [updateCell_cellExt_self s r (fun e => e - 1) cr hcr_get]
    omega
  have hchildr : childRefs s r = 0 := by
    have := cellExt_eq_of_get s r cr hcr_get
    unfold strongCount at hcr
    omega
  have hs₁cnt : strongCount s₁ r = 0 := by
    unfold strongCount
    rw [hs₁ext_r, hs₁childRefs r, hchildr]
  have hs₁b : cellBody s₁ r = some (CellKind.ref w o) := by
    rw [hs₁body r]
    exact hb
  have hdrop : dropHandle s r = sweep r (setDead s₁ r) o := by
    unfold dropHandle
    rw [← hs₁]
    exact sweep_ref r s₁ r o w hs₁cnt hs₁b
  have hcell₁ : ({ cr with ext := cr.ext - 1 } : Cell V W).body
      = some (CellKind.ref w o) := hcrb
  have hcr2 := setDead_childRefs_ref s₁ r { cr with ext := cr.ext - 1 } w o hs₁get hcell₁
  have hchild_o : childRefs (setDead s₁ r) o + 1 = childRefs s o := by
    have h1 := hcr2.1
    rw [hs₁childRefs o] at h1
    exact h1
  have hs₂ext : ∀ x, cellExt (setDead s₁ r) x = cellExt s₁ x := fun x =>
    setDead_cellExt s₁ r x
  have hs₂cnt_o : strongCount (setDead s₁ r) o + 1 = strongCount s o := by
    unfold strongCount
    rw [hs₂ext o, hs₁ext_ne o hor]
    omega
  have hlive : ¬ strongCount (setDead s₁ r) o = 0 := by omega
  rw [hdrop, sweep_live r (setDead s₁ r) o hlive]
  refine ⟨?_, ?_, ?_, ?_, ?_, ?_⟩
  · rw [setDead_cellBody_ne s₁ r o hor, hs₁body o]
  · rw [setDead_cellDeallocs_ne s₁ r o hor, hs₁deall o]
  · rw [hs₂ext o, hs₁ext_ne o hor]
  · exact hs₂cnt_o
  · exact setDead_cellBody_self s₁ r _ hs₁get
  · intro x hxr hxo
    refine ⟨?_, ?_, ?_, ?_⟩
    · rw [setDead_cellBody_ne s₁ r x hxr, hs₁body x]
    · rw [hs₂ext x, hs₁ext_ne x hxr]
    · rw [setDead_cellDeallocs_ne s₁ r x hxr, hs₁deall x]
    · rw [hcr2.2 x hxo, hs₁childRefs x]

theorem dropRef_final {V W : Type} (s : State V W) (r o : Nat) (w : W) (vo : V)
    (hb : cellBody s r = some (CellKind.ref w o))
    (hx : cellExt s r = 1) (hcr : strongCount s r = 1)
    (hor : o < r) (hlast : strongCount s o = 1)
    (hbo : cellBody s o = some (CellKind.owned vo)) :
    cellBody (dropHandle s r) o = none
    ∧ cellDeallocs (dropHandle s r) o = cellDeallocs s o + 1 := by
  obtain ⟨cr, hcr_get, hcrb⟩ := cellBody_some_get s r _ hb
  have hone : o ≠ r := by omega
  set s₁ := updateCell s r (fun c => { c with ext := c.ext - 1 }) with hs₁
  have hs₁get : s₁.cells.get? r = some { cr with ext := cr.ext - 1 } :=
    updateCell_get_self s r _ cr hcr_get
  have hs₁childRefs : ∀ x, childRefs s₁ x = childRefs s x := fun x =>
    updateCell_childRefs_of_body s r (fun c => { c with ext := c.ext - 1 }) (fun _ => rfl) x
  have hs₁body : ∀ x, cellBody s₁ x = cellBody s x := fun x =>
    updateCell_cellBody_of_body s r (fun c => { c with ext := c.ext - 1 }) (fun _ => rfl) x
  have hs₁deall : ∀ x, cellDeallocs s₁ x = cellDeallocs s x := fun x =>
    updateCell_cellDeallocs_of_deallocs s r (fun c => { c with ext := c.ext - 1 })
      (fun _ => rfl) x
  have hs₁ext_ne : ∀ x, x ≠ r → cellExt s₁ x = cellExt s x := fun x hxr => by
    unfold cellExt
    rw [updateCell_get_ne s r x _ (fun hh => hxr hh.symm)]
  have hs₁ext_r : cellExt s₁ r = 0 := by
    rw [updateCell_cellExt_self s r (fun e => e - 1) cr hcr_get]
    have := cellExt_eq_of_get s r cr hcr_get
    omega
  have hchildr : childRefs s r = 0 := by
    have := cellExt_eq_of_get s r cr hcr_get
    unfold strongCount at hcr
    omega
  have hs₁cnt : strongCount s₁ r = 0 := by
    unfold strongCount
    rw [hs₁ext_r, hs₁childRefs r, hchildr]
  have hs₁b : cellBody s₁ r = some (CellKind.ref w o) := by
    rw [hs₁body r]
    exact hb
  have hdrop : dropHandle s r = sweep r (setDead s₁ r) o := by
    unfold dropHandle
    rw [← hs₁]
    exact sweep_ref r s₁ r o w hs₁cnt hs₁b
  have hcell₁ : ({ cr with ext := cr.ext - 1 } : Cell V W).body
      = some (CellKind.ref w o) := hcrb
  have hcr2 := setDead_childRefs_ref s₁ r { cr with ext := cr.ext - 1 } w o hs₁get hcell₁
  have hchild_o : childRefs (setDead s₁ r) o + 1 = childRefs s o := by
    have h1 := hcr2.1
    rw [hs₁childRefs o] at h1
    exact h1
  have hs₂ext : ∀ x, cellExt (setDead s₁ r) x = cellExt s₁ x := fun x =>
    setDead_cellExt s₁ r x
  have hs₂cnt_o : strongCount (setDead s₁ r) o = 0 := by
    unfold strongCount
    rw [hs₂ext o, hs₁ext_ne o hone]
    unfold strongCount at hlast
    omega
  have hs₂bo : cellBody (setDead s₁ r) o = some (CellKind.owned vo) := by
    rw [setDead_cellBody_ne s₁ r o hone, hs₁body o]
    exact hbo
  obtain ⟨co, hco_get, hcob⟩ := cellBody_some_get (setDead s₁ r) o _ hs₂bo
  have hfinal : dropHandle s r = setDead (setDead s₁ r) o := by
    rw [hdrop]
    exact sweep_owned r (setDead s₁ r) o vo (by omega) hs₂cnt_o hs₂bo
  rw [hfinal]
  constructor
  · exact setDead_cellBody_self (setDead s₁ r) o co hco_get
  · rw [setDead_cellDeallocs_self (setDead s₁ r) o co hco_get]
    have h1 : cellDeallocs (setDead s₁ r) o = co.deallocs :=
      cellDeallocs_eq_of_get (setDead s₁ r) o co hco_get
    have h2 : cellDeallocs (setDead s₁ r) o = cellDeallocs s o := by
      rw [setDead_cellDeallocs_ne s₁ r o hone, hs₁deall o]
    omega


/-! ## Claim theorems -/

theorem bind_instance_cellExt_new {V W : Type} (s : State V W) (v : V) :
    cellExt (bind_instance s v) s.cells.length = 1 := by
  unfold cellExt
  rw [bind_instance_get_new]
  rfl

theorem owner_ok_of_child {V W : Type} (s : State V W) (j o : Nat) (w : W)
    (hInv : Inv s) (hb : cellBody s j = some (CellKind.ref w o)) :
    0 < strongCount s o ∧ (cellBody s o).isSome ∧ cellDeallocs s o = 0 := by
  obtain ⟨c, hc, hcb⟩ := cellBody_some_get s j _ hb
  have hchild : 1 ≤ childRefs s o := childRefs_child s j o c w hc hcb
  have holt : o < j := hInv.1 j c hc w o hcb
  have hjlen : j < s.cells.length := get_lt_length s j c hc
  have holen : o < s.cells.length := by omega
  rcases hInv.2 o holen with hok | ⟨hz, _, _⟩
  · exact hok
  · exfalso
    unfold strongCount at hz
    omega

/-- C1: in every reachable heap, a live dependent cell holds its owner
handle for its whole lifetime, so every cell that a live dependent cell
reaches along stored owner handles — directly or transitively — has a
nonzero strong count, its guarded payload still allocated, and has never
been deallocated. -/
theorem refcell_keeps_owner_alive {V W : Type} (ops : List (Op V W)) (s : State V W)
    (h : run (initState V W) ops = some s) (j o : Nat)
    (hdep : DependsOn s j o) :
    0 < strongCount s o ∧ (cellBody s o).isSome ∧ cellDeallocs s o = 0 := by
  have hInv := reachable_inv ops s h
  induction hdep with
  | direct hb => exact owner_ok_of_child s _ _ _ hInv hb
  | trans hb hk ih => exact ih

/-- C2: for any cell `o` of the heap and any view `w`, the
`bind_owned(view, clone(O))` pattern — an `Arc::clone` of `o`'s handle
followed by `bind_owned_instance` consuming the clone — yields a new
dependent cell and leaves `o`'s strong count at exactly one more than
before the call. -/
theorem bind_owned_after_clone_count {V W : Type} (s : State V W) (w : W) (o : Nat)
    (c : Cell V W) (hc : s.cells.get? o = some c) :
    strongCount (bind_owned_instance (cloneHandle s o) w o) o = strongCount s o + 1
    ∧ cellBody (bind_owned_instance (cloneHandle s o) w o) s.cells.length
        = some (CellKind.ref (transmuteErase w) o) := by
  have hc1 : (cloneHandle s o).cells.get? o = some { c with ext := c.ext + 1 } := by
    rw [cloneHandle_cells]
    exact updateCell_get_self s o _ c hc
  constructor
  · rw [bind_owned_instance_strongCount_self (cloneHandle s o) w o _ hc1
      (Nat.succ_pos c.ext)]
    exact cloneHandle_strongCount_self s o c hc
  · have hn := bind_owned_instance_cellBody_new (cloneHandle s o) w o
    rw [cloneHandle_length] at hn
    exact hn

/-- C3: `bind_instance` allocates a fresh owning cell — its index was
unoccupied before — and the guarded payload read back through the new cell
is exactly the bound value. -/
theorem bind_instance_reads_back {V W : Type} (s : State V W) (v : V) :
    cellBody s s.cells.length = none
    ∧ cellBody (bind_instance s v) s.cells.length = some (CellKind.owned v) :=
  ⟨cellBody_invalid s s.cells.length (Nat.le_refl _), bind_instance_cellBody_new s v⟩

/-- C4 (amended): `bind_owned_instance` performs no `Arc::clone` of the
owner handle it receives; it moves the already-cloned handle into the new
dependent cell (one external handle becomes the stored handle), so the
owner's strong count is unchanged between entry and return, and the
clone-event counter is unchanged.  The increment of the
`bind_owned(view, clone(O))` pattern comes from the caller's clone alone. -/
theorem bind_owned_moves_handle {V W : Type} (s : State V W) (w : W) (i : Nat)
    (hext : 0 < cellExt s i) :
    strongCount (bind_owned_instance s w i) i = strongCount s i
    ∧ (bind_owned_instance s w i).cloneOps = s.cloneOps
    ∧ cellExt (bind_owned_instance s w i) i + 1 = cellExt s i
    ∧ childRefs (bind_owned_instance s w i) i = childRefs s i + 1 := by
  obtain ⟨c, hc⟩ := cellExt_valid s i hext
  have hce : cellExt s i = c.ext := cellExt_eq_of_get s i c hc
  refine ⟨?_, bind_owned_instance_cloneOps s w i, ?_, ?_⟩
  · exact bind_owned_instance_strongCount_self s w i c hc (by omega)
  · rw [bind_owned_instance_cellExt_self s w i c hc]
    omega
  · rw [bind_owned_instance_childRefs s w i i, if_pos rfl]

/-- C5: for two distinct dependent cells `r1`, `r2` of the same owning
cell `o` that hold its only two handles, destroying them in either order
leaves `o`'s payload allocated after the first drop, and the second drop
deallocates the payload exactly once — for both orderings. -/
theorem refcell_drop_order_independent {V W : Type} (ops : List (Op V W)) (s : State V W)
    (h : run (initState V W) ops = some s) (r1 r2 o : Nat) (w1 w2 : W) (vo : V)
    (hne : r1 ≠ r2)
    (hb1 : cellBody s r1 = some (CellKind.ref w1 o))
    (hb2 : cellBody s r2 = some (CellKind.ref w2 o))
    (hbo : cellBody s o = some (CellKind.owned vo))
    (hx1 : cellExt s r1 = 1) (hc1 : strongCount s r1 = 1)
    (hx2 : cellExt s r2 = 1) (hc2 : strongCount s r2 = 1)
    (hco : strongCount s o = 2) :
    ((cellBody (dropHandle s r1) o).isSome
      ∧ cellDeallocs (dropHandle s r1) o = 0
      ∧ cellBody (dropHandle (dropHandle s r1) r2) o = none
      ∧ cellDeallocs (dropHandle (dropHandle s r1) r2) o = 1)
    ∧ ((cellBody (dropHandle s r2) o).isSome
      ∧ cellDeallocs (dropHandle s r2) o = 0
      ∧ cellBody (dropHandle (dropHandle s r2) r1) o = none
      ∧ cellDeallocs (dropHandle (dropHandle s r2) r1) o = 1) := by
  have hInv := reachable_inv ops s h
  have hE := hInv.1
  have ho1 : o < r1 := (edges_iff s).mp hE r1 w1 o hb1
  have ho2 : o < r2 := (edges_iff s).mp hE r2 w2 o hb2
  have holen : o < s.cells.length := cellBody_some_lt s o _ hbo
  have hdo : cellDeallocs s o = 0 := by
    rcases hInv.2 o holen with ⟨_, _, hd⟩ | ⟨hz, _, _⟩
    · exact hd
    · omega
  constructor
  · obtain ⟨hAbo, hAdo, hAxo, hAcnt, hAr1, hAframe⟩ :=
      dropRef_release s r1 o w1 hb1 hx1 hc1 (by omega) (by omega)
    obtain ⟨hFb, hFx, hFd, hFcr⟩ := hAframe r2 (fun hh => hne hh.symm) (by omega)
    have hB := dropRef_final (dropHandle s r1) r2 o w2 vo
      (by rw [hFb]; exact hb2) (by rw [hFx]; exact hx2)
      (by unfold strongCount; rw [hFx, hFcr]; exact hc2)
      ho2 (by omega) (by rw [hAbo]; exact hbo)
    refine ⟨?_, ?_, hB.1, ?_⟩
    · rw [hAbo, hbo]
      rfl
    · rw [hAdo, hdo]
    · rw [hB.2, hAdo, hdo]
  · obtain ⟨hAbo, hAdo, hAxo, hAcnt, hAr2, hAframe⟩ :=
      dropRef_release s r2 o w2 hb2 hx2 hc2 (by omega) (by omega)
    obtain ⟨hFb, hFx, hFd, hFcr⟩ := hAframe r1 hne (by omega)
    have hB := dropRef_final (dropHandle s r2) r1 o w1 vo
      (by rw [hFb]; exact hb1) (by rw [hFx]; exact hx1)
      (by unfold strongCount; rw [hFx, hFcr]; exact hc1)
      ho1 (by omega) (by rw [hAbo]; exact hbo)
    refine ⟨?_, ?_, hB.1, ?_⟩
    · rw [hAbo, hbo]
      rfl
    · rw [hAdo, hdo]
    · rw [hB.2, hAdo, hdo]

/-- C6: the stored view of a dependent cell is the lifetime-erased input
view, the erasure (`transmute` between `T<'a>` and `T<'static>`) is the
identity on the carried value, and at any later point while the dependent
cell is still allocated, reading its stored view yields exactly the view
captured at creation. -/
theorem erased_view_roundtrip {V W : Type} (s : State V W) (w : W) (i : Nat)
    (ops : List (Op V W)) (s₂ : State V W) (b : CellKind V W)
    (h : run (bind_owned_instance s w i) ops = some s₂)
    (hb : cellBody s₂ s.cells.length = some b) :
    b = CellKind.ref (transmuteErase w) i ∧ transmuteErase w = w := by
  have hnew := bind_owned_instance_cellBody_new s w i
  rcases run_ref_pres ops (bind_owned_instance s w i) s₂ s.cells.length i
    (transmuteErase w) h hnew with hc | hc
  · rw [hc] at hb
    injection hb with hb
    exact ⟨hb.symm, rfl⟩
  · rw [hc] at hb
    exact Option.noConfusion hb

/-- C7: the two generated constructors are infallible — `bind_instance`
always succeeds (its `applyOp` step never rejects), and
`bind_owned_instance` succeeds whenever the caller holds the owner handle
it passes; each returns a live handle to a freshly allocated cell.  No
error value exists on either path. -/
theorem constructors_infallible {V W : Type} (s : State V W) (v : V) (w : W) (i : Nat) :
    (applyOp s (Op.bind v) = some (bind_instance s v)
      ∧ 0 < strongCount (bind_instance s v) s.cells.length
      ∧ (cellBody (bind_instance s v) s.cells.length).isSome)
    ∧ (0 < cellExt s i →
        applyOp s (Op.bindOwned w i) = some (bind_owned_instance s w i)
        ∧ 0 < strongCount (bind_owned_instance s w i) s.cells.length
        ∧ (cellBody (bind_owned_instance s w i) s.cells.length).isSome) := by
  constructor
  · refine ⟨rfl, ?_, ?_⟩
    · unfold strongCount
      rw [bind_instance_cellExt_new]
      omega
    · rw [bind_instance_cellBody_new]
      rfl
  · intro hext
    refine ⟨?_, ?_, ?_⟩
    · simp only [applyOp]
      rw [if_pos hext]
    · unfold strongCount
      rw [bind_owned_instance_cellExt_new]
      omega
    · rw [bind_owned_instance_cellBody_new]
      rfl

/-- C8: in the `Mutex` protocol guarding every cell's payload, any
reachable interleaving state has at most one thread holding the guard
(two holders coincide), and an access step of the payload succeeds only
for a thread currently holding the guard — every read or mutation passes
through the lock. -/
theorem mutex_mutual_exclusion (n : Nat) (ops : List MutexModel.MOp)
    (s : MutexModel.MState)
    (h : MutexModel.mRun (MutexModel.mInit n) ops = some s) :
    (∀ t1 t2, s.holding.get? t1 = some true → s.holding.get? t2 = some true → t1 = t2)
    ∧ (∀ t f s', MutexModel.mApply s (MutexModel.MOp.access t f) = some s' →
        s.holding.get? t = some true) := by
  have hInv := MutexModel.mRun_minv ops (MutexModel.mInit n) s (MutexModel.mInit_minv n) h
  constructor
  · intro t1 t2 h1 h2
    have g1 := hInv t1 h1
    have g2 := hInv t2 h2
    rw [g1] at g2
    exact Option.some.inj g2
  · intro t f s' hacc
    simp only [MutexModel.mApply] at hacc
    by_cases hcond : s.holding.get? t = some true
    · exact hcond
    · rw [if_neg hcond] at hacc
      exact Option.noConfusion hacc

/-- C9: the owner stored in a dependent cell is fixed at creation: along
any run, the cell's body either still holds exactly the same erased view
and owner handle, or the whole cell has been destroyed — no operation
re-parents it or removes the dependency edge any other way. -/
theorem dependency_edge_fixed {V W : Type} (ops : List (Op V W)) (s s' : State V W)
    (j o : Nat) (w : W) (h : run s ops = some s')
    (hb : cellBody s j = some (CellKind.ref w o)) :
    cellBody s' j = some (CellKind.ref w o) ∨ cellBody s' j = none :=
  run_ref_pres ops s s' j o w h hb

/-- C10: `bind_owned_instance` never touches the owner's lock or guarded
payload: every existing cell keeps its body (hence the owner's stored
payload value), its `Mutex` state and its deallocation count unchanged;
only the handle bookkeeping of the owner (one external handle moved into
the new cell) and the fresh cell differ. -/
theorem bind_owned_frame {V W : Type} (s : State V W) (w : W) (i j : Nat)
    (hj : j < s.cells.length) :
    cellBody (bind_owned_instance s w i) j = cellBody s j
    ∧ cellLock (bind_owned_instance s w i) j = cellLock s j
    ∧ cellDeallocs (bind_owned_instance s w i) j = cellDeallocs s j
    ∧ (j ≠ i → cellExt (bind_owned_instance s w i) j = cellExt s j) := by
  have hne : j ≠ s.cells.length := by omega
  exact ⟨bind_owned_instance_cellBody s w i j hne,
    bind_owned_instance_cellLock s w i j hne,
    bind_owned_instance_cellDeallocs s w i j hne,
    fun hji => bind_owned_instance_cellExt_ne s w i j hji hne⟩


/-! ## Concrete scenarios: counterexample and witnesses -/

/-- An owning cell bound with payload 7 whose handle the caller has cloned
once — the state right before the `bind_owned_instance` call of the
`bind_owned(view, clone(O))` pattern. -/
def c4State : State Nat Nat := cloneHandle (bind_instance (initState Nat Nat) 7) 0

/-- C4 (counterexample): `bind_owned_instance` does not itself clone the
received owner handle: at a concrete owner whose handle was already cloned
by the caller, the call leaves the owner's strong count unchanged rather
than incrementing it, and performs no clone event. -/
theorem bind_owned_no_internal_clone_cex :
    strongCount (bind_owned_instance c4State 5 0) 0 ≠ strongCount c4State 0 + 1
    ∧ (bind_owned_instance c4State 5 0).cloneOps ≠ c4State.cloneOps + 1 := by
  constructor
  · decide
  · decide

theorem bind_owned_moves_handle_witness :
    strongCount (bind_owned_instance c4State 5 0) 0 = strongCount c4State 0
    ∧ (bind_owned_instance c4State 5 0).cloneOps = c4State.cloneOps
    ∧ cellExt (bind_owned_instance c4State 5 0) 0 + 1 = cellExt c4State 0
    ∧ childRefs (bind_owned_instance c4State 5 0) 0 = childRefs c4State 0 + 1 :=
  bind_owned_moves_handle c4State 5 0 (by decide)

def c1DemoOps : List (Op Nat Nat) :=
  [Op.bind 7, Op.clone 0, Op.bindOwned 5 0, Op.clone 1, Op.bindOwned 9 1]

def c1DemoS : State Nat Nat :=
  ⟨[⟨1, some (CellKind.owned 7), 0, none⟩,
    ⟨1, some (CellKind.ref 5 0), 0, none⟩,
    ⟨1, some (CellKind.ref 9 1), 0, none⟩], 2⟩

theorem refcell_keeps_owner_alive_witness :
    0 < strongCount c1DemoS 0 ∧ (cellBody c1DemoS 0).isSome
      ∧ cellDeallocs c1DemoS 0 = 0 :=
  refcell_keeps_owner_alive c1DemoOps c1DemoS (by decide) 2 0
    (@DependsOn.trans Nat Nat c1DemoS 2 1 0 9 (by decide)
      (@DependsOn.direct Nat Nat c1DemoS 1 0 5 (by decide)))

def c2DemoS : State Nat Nat := ⟨[⟨1, some (CellKind.owned 42), 0, none⟩], 0⟩

theorem bind_owned_after_clone_count_witness :
    strongCount (bind_owned_instance (cloneHandle c2DemoS 0) 11 0) 0
        = strongCount c2DemoS 0 + 1
    ∧ cellBody (bind_owned_instance (cloneHandle c2DemoS 0) 11 0) c2DemoS.cells.length
        = some (CellKind.ref (transmuteErase 11) 0) :=
  bind_owned_after_clone_count c2DemoS 11 0 ⟨1, some (CellKind.owned 42), 0, none⟩
    (by decide)

def c5DemoOps : List (Op Nat Nat) :=
  [Op.bind 100, Op.clone 0, Op.bindOwned 10 0, Op.clone 0, Op.bindOwned 20 0, Op.drop 0]

def c5DemoS : State Nat Nat :=
  ⟨[⟨0, some (CellKind.owned 100), 0, none⟩,
    ⟨1, some (CellKind.ref 10 0), 0, none⟩,
    ⟨1, some (CellKind.ref 20 0), 0, none⟩], 2⟩

theorem refcell_drop_order_independent_witness :
    ((cellBody (dropHandle c5DemoS 1) 0).isSome
      ∧ cellDeallocs (dropHandle c5DemoS 1) 0 = 0
      ∧ cellBody (dropHandle (dropHandle c5DemoS 1) 2) 0 = none
      ∧ cellDeallocs (dropHandle (dropHandle c5DemoS 1) 2) 0 = 1)
    ∧ ((cellBody (dropHandle c5DemoS 2) 0).isSome
      ∧ cellDeallocs (dropHandle c5DemoS 2) 0 = 0
      ∧ cellBody (dropHandle (dropHandle c5DemoS 2) 1) 0 = none
      ∧ cellDeallocs (dropHandle (dropHandle c5DemoS 2) 1) 0 = 1) :=
  refcell_drop_order_independent c5DemoOps c5DemoS (by decide) 1 2 0 10 20 100
    (by decide) (by decide) (by decide) (by decide) (by decide) (by decide)
    (by decide) (by decide) (by decide)

def c6DemoS : State Nat Nat := ⟨[⟨1, some (CellKind.owned 3), 0, none⟩], 0⟩

def c6DemoS2 : State Nat Nat :=
  ⟨[⟨1, some (CellKind.owned 3), 0, none⟩,
    ⟨1, some (CellKind.ref 11 0), 0, none⟩], 1⟩

theorem erased_view_roundtrip_witness :
    (CellKind.ref 11 0 : CellKind Nat Nat) = CellKind.ref (transmuteErase 11) 0
      ∧ transmuteErase (11 : Nat) = 11 :=
  erased_view_roundtrip c6DemoS 11 0 [Op.clone 0] c6DemoS2 (CellKind.ref 11 0)
    (by decide) (by decide)

def c7DemoS : State Nat Nat := ⟨[⟨1, some (CellKind.owned 5), 0, none⟩], 0⟩

theorem constructors_infallible_witness :
    (applyOp c7DemoS (Op.bind 1) = some (bind_instance c7DemoS 1)
      ∧ 0 < strongCount (bind_instance c7DemoS 1) c7DemoS.cells.length
      ∧ (cellBody (bind_instance c7DemoS 1) c7DemoS.cells.length).isSome)
    ∧ (applyOp c7DemoS (Op.bindOwned 2 0) = some (bind_owned_instance c7DemoS 2 0)
      ∧ 0 < strongCount (bind_owned_instance c7DemoS 2 0) c7DemoS.cells.length
      ∧ (cellBody (bind_owned_instance c7DemoS 2 0) c7DemoS.cells.length).isSome) :=
  ⟨(constructors_infallible c7DemoS 1 2 0).1,
    (constructors_infallible c7DemoS 1 2 0).2 (by decide)⟩

def c8DemoOps : List MutexModel.MOp :=
  [MutexModel.MOp.acquire 0, MutexModel.MOp.access 0 Nat.succ,
    MutexModel.MOp.release 0, MutexModel.MOp.acquire 1]

def c8DemoS : MutexModel.MState := ⟨some 1, [false, true], 1⟩

theorem mutex_mutual_exclusion_witness :
    (∀ t1 t2, c8DemoS.holding.get? t1 = some true →
        c8DemoS.holding.get? t2 = some true → t1 = t2)
    ∧ (∀ t f s', MutexModel.mApply c8DemoS (MutexModel.MOp.access t f) = some s' →
        c8DemoS.holding.get? t = some true) :=
  mutex_mutual_exclusion 2 c8DemoOps c8DemoS rfl

def c9DemoS : State Nat Nat :=
  ⟨[⟨1, some (CellKind.owned 4), 0, none⟩,
    ⟨1, some (CellKind.ref 8 0), 0, none⟩], 1⟩

def c9DemoS2 : State Nat Nat :=
  ⟨[⟨0, some (CellKind.owned 4), 0, none⟩,
    ⟨1, some (CellKind.ref 8 0), 0, none⟩], 1⟩

theorem dependency_edge_fixed_witness :
    cellBody c9DemoS2 1 = some (CellKind.ref 8 0) ∨ cellBody c9DemoS2 1 = none :=
  dependency_edge_fixed [Op.drop 0] c9DemoS c9DemoS2 1 0 8 (by decide) (by decide)

def c10DemoS : State Nat Nat := ⟨[⟨1, some (CellKind.owned 9), 0, none⟩], 0⟩

theorem bind_owned_frame_witness :
    cellBody (bind_owned_instance c10DemoS 3 0) 0 = cellBody c10DemoS 0
    ∧ cellLock (bind_owned_instance c10DemoS 3 0) 0 = cellLock c10DemoS 0
    ∧ cellDeallocs (bind_owned_instance c10DemoS 3 0) 0 = cellDeallocs c10DemoS 0
    ∧ ((0 : Nat) ≠ 0 → cellExt (bind_owned_instance c10DemoS 3 0) 0 = cellExt c10DemoS 0) :=
  bind_owned_frame c10DemoS 3 0 0 (by decide)

end Pyoil3
